import Mathlib

/-!
# Load balancer: a shallow embedding of `Load_Balancer.cpp`

The C++ program keeps `Destination` and `Service` objects behind raw pointers and
stores those pointers in hash containers.  The embedding makes this explicit:

* a pointer is a natural number, `0` being `nullptr`;
* `Memory` maps addresses to the objects that live there;
* `unordered_set<Destination*>` is a duplicate-free list of pointers, the list
  order being the iteration order of the container (every order is a possible
  value, so a statement over all sets covers every iteration order);
* `unordered_map<RequestType, V>` is a function `RequestType → Option V`;
* a call either returns or ends in a `Fault`: a thrown `runtime_error`, or one of
  the undefined behaviours the code can run into;
* `int` counters are integers: the `++` is guarded by
  `requestsBeingServed < threshold` and cannot leave the range of `int`; the `--`
  is not guarded, and a result below `INT_MIN` is brought back into the range by
  adding `2 ^ 32`.
-/

namespace LB

/-! ## Data model -/

/-- The enumeration `RequestType`. -/
inductive RequestType where
  | TYPE_A
  | TYPE_B
  deriving DecidableEq, Repr

/-- The class `Request`; `parameters` is carried along and never read. -/
structure Request where
  id : String
  requestType : RequestType
  parameters : List (String × String)
  deriving DecidableEq, Repr

/-- The class `Destination`: `requestsBeingServed` starts at `0`. -/
structure Destination where
  ipAddress : String
  requestsBeingServed : Int
  threshold : Int
  deriving DecidableEq, Repr

/-- The constructor `Destination(ip, thresh)`. -/
def Destination.ctor (ip : String) (thresh : Int) : Destination :=
  { ipAddress := ip, requestsBeingServed := 0, threshold := thresh }

/-- The method `Destination::acceptRequest`: the returned flag and the object afterwards. -/
def Destination.acceptRequest (d : Destination) (_request : Request) : Bool × Destination :=
  if d.requestsBeingServed < d.threshold then
    (true, { d with requestsBeingServed := d.requestsBeingServed + 1 })
  else
    (false, d)

/-- The least value of a 32-bit `int`. -/
def INT_MIN : Int := -2147483648

/-- The method `Destination::completeRequest`: `requestsBeingServed--` on a 32-bit
`int`. The decrement at `INT_MIN` is a signed overflow (undefined behaviour in C++);
the model takes the two's-complement result, `INT_MAX`. -/
def Destination.completeRequest (d : Destination) : Destination :=
  { d with
    requestsBeingServed :=
      if d.requestsBeingServed - 1 < INT_MIN then d.requestsBeingServed - 1 + 2 ^ 32
      else d.requestsBeingServed - 1 }

/-- An `unordered_set<Destination*>`: the pointers in iteration order, without duplicates. -/
structure UnorderedSet where
  elems : List Nat
  nodup : elems.Nodup

/-- The empty container. -/
def UnorderedSet.empty : UnorderedSet := ⟨[], List.nodup_nil⟩

/-- The call `insert`: nothing happens when the key is present; the place of a new key
in the iteration order is not fixed by the container, the model puts it first. -/
def UnorderedSet.insert (s : UnorderedSet) (p : Nat) : UnorderedSet :=
  if h : p ∈ s.elems then s else ⟨p :: s.elems, List.nodup_cons.mpr ⟨h, s.nodup⟩⟩

/-- The call `erase`: the other keys keep their relative order. -/
def UnorderedSet.erase (s : UnorderedSet) (p : Nat) : UnorderedSet :=
  ⟨s.elems.erase p, s.nodup.erase p⟩

/-- The class `Service`. -/
structure Service where
  name : String
  destinations : UnorderedSet

/-- The method `Service::addDestination`. -/
def Service.addDestination (s : Service) (destination : Nat) : Service :=
  { s with destinations := s.destinations.insert destination }

/-- The method `Service::removeDestination`. -/
def Service.removeDestination (s : Service) (destination : Nat) : Service :=
  { s with destinations := s.destinations.erase destination }

/-- The objects the pointers of the program refer to. -/
structure Memory where
  destinations : Nat → Option Destination
  services : Nat → Option Service

/-- The ways a call can end without returning. -/
inductive Fault where
  | runtime_error (what : String)
  | nullDereference
  | invalidDereference
  | moduloByZero
  | emptyQueueFront
  deriving DecidableEq, Repr

/-- The access `p->…` for a `Service*`. -/
def derefService (m : Memory) (p : Nat) : Except Fault Service :=
  if p = 0 then .error .nullDereference
  else match m.services p with
    | some s => .ok s
    | none => .error .invalidDereference

/-- The access `p->…` for a `Destination*`. -/
def derefDestination (m : Memory) (p : Nat) : Except Fault Destination :=
  if p = 0 then .error .nullDereference
  else match m.destinations p with
    | some d => .ok d
    | none => .error .invalidDereference

/-! ## The base class `LoadBalancer` -/

/-- The class `LoadBalancer`: `serviceMap` from request type to `Service*`. -/
structure LoadBalancer where
  serviceMap : RequestType → Option Nat

/-- A balancer as constructed: nothing registered. -/
def LoadBalancer.init : LoadBalancer := { serviceMap := fun _ => none }

/-- The method `LoadBalancer::registerService`: `serviceMap[requestType] = service`. -/
def LoadBalancer.registerService (lb : LoadBalancer) (requestType : RequestType)
    (service : Nat) : LoadBalancer :=
  { serviceMap := Function.update lb.serviceMap requestType (some service) }

/-- The access `serviceMap[key]`: a missing key is inserted with a null pointer. -/
def LoadBalancer.serviceMapIndex (lb : LoadBalancer) (key : RequestType) :
    Nat × LoadBalancer :=
  match lb.serviceMap key with
  | some p => (p, lb)
  | none => (0, { serviceMap := Function.update lb.serviceMap key (some 0) })

/-- The method `LoadBalancer::getDestinations`: a copy of the set of the service the
request type maps to (the copy iterates in the order of the original). -/
def LoadBalancer.getDestinations (m : Memory) (lb : LoadBalancer) (request : Request) :
    Except Fault (UnorderedSet × LoadBalancer) :=
  let (p, lb') := lb.serviceMapIndex request.requestType
  match derefService m p with
  | .ok s => .ok (s.destinations, lb')
  | .error e => .error e

/-! ## `LeastConnectionLoadBalancer` -/

/-- The comparator handed to `min_element`:
`a->requestsBeingServed < b->requestsBeingServed`. -/
def LeastConnectionLoadBalancer.comp (m : Memory) (a b : Nat) : Except Fault Bool :=
  match derefDestination m a with
  | .error e => .error e
  | .ok da =>
    match derefDestination m b with
    | .error e => .error e
    | .ok db => .ok (decide (da.requestsBeingServed < db.requestsBeingServed))

/-- The loop of `std::min_element`: `rest` is what is left from position `first` on,
`smallest` is the position of the smallest element so far and `smallestVal` the
pointer stored there. -/
def minElementLoop (m : Memory) : List Nat → Nat → Nat → Nat → Except Fault Nat
  | [], _, smallest, _ => .ok smallest
  | x :: rest, first, smallest, smallestVal =>
    match LeastConnectionLoadBalancer.comp m x smallestVal with
    | .error e => .error e
    | .ok true => minElementLoop m rest (first + 1) first x
    | .ok false => minElementLoop m rest (first + 1) smallest smallestVal

/-- The algorithm `std::min_element(begin, end, comp)`: an iterator is its position in
the iteration order, `end()` is the length; on an empty range it returns `end()`. -/
def min_element (m : Memory) (l : List Nat) : Except Fault Nat :=
  match l with
  | [] => .ok 0
  | x :: rest => minElementLoop m rest 1 0 x

/-- The method `LeastConnectionLoadBalancer::balanceLoad`: the returned pointer and the
balancer afterwards. -/
def LeastConnectionLoadBalancer.balanceLoad (m : Memory) (lb : LoadBalancer)
    (request : Request) : Except Fault (Nat × LoadBalancer) :=
  match lb.getDestinations m request with
  | .error e => .error e
  | .ok (destinations, lb') =>
    match min_element m destinations.elems with
    | .error e => .error e
    | .ok minElem =>
      if minElem ≠ destinations.elems.length then
        match destinations.elems[minElem]? with
        | some d => .ok (d, lb')
        | none => .error .invalidDereference
      else
        .error (.runtime_error "No destination available")

/-! ## `RoutedLoadBalancer` -/

/-- The method `RoutedLoadBalancer::balanceLoad`; `hash` stands for `hash<string>{}`,
which the standard library supplies. -/
def RoutedLoadBalancer.balanceLoad (hash : String → Nat) (m : Memory) (lb : LoadBalancer)
    (request : Request) : Except Fault (Nat × LoadBalancer) :=
  match lb.getDestinations m request with
  | .error e => .error e
  | .ok (destinations, lb') =>
    let list := destinations.elems
    if h : list.length = 0 then
      .error .moduloByZero
    else
      .ok (list.get ⟨hash request.id % list.length, Nat.mod_lt _ (Nat.pos_of_ne_zero h)⟩, lb')

/-! ## `RoundRobinLoadBalancer` -/

/-- The class `RoundRobinLoadBalancer`: the base class and one queue per request type
(the front of the queue is the head of the list). -/
structure RoundRobinLoadBalancer extends LoadBalancer where
  destinationsForRequest : RequestType → Option (List Nat)

/-- A round-robin balancer as constructed: nothing registered, no queue. -/
def RoundRobinLoadBalancer.init : RoundRobinLoadBalancer :=
  { toLoadBalancer := LoadBalancer.init, destinationsForRequest := fun _ => none }

/-- The method `registerService`, inherited from the base class. -/
def RoundRobinLoadBalancer.registerService (lb : RoundRobinLoadBalancer)
    (requestType : RequestType) (service : Nat) : RoundRobinLoadBalancer :=
  { lb with toLoadBalancer := lb.toLoadBalancer.registerService requestType service }

/-- The method `RoundRobinLoadBalancer::convertToQueue`: push every element, in
iteration order. -/
def RoundRobinLoadBalancer.convertToQueue (destinations : UnorderedSet) : List Nat :=
  destinations.elems.foldl (fun q d => q ++ [d]) []

/-- The first statement of `RoundRobinLoadBalancer::balanceLoad`: build the queue of the
request type when there is none. -/
def RoundRobinLoadBalancer.ensureQueue (m : Memory) (lb : RoundRobinLoadBalancer)
    (request : Request) : Except Fault RoundRobinLoadBalancer :=
  match lb.destinationsForRequest request.requestType with
  | some _ => .ok lb
  | none =>
    match lb.toLoadBalancer.getDestinations m request with
    | .error e => .error e
    | .ok (destinations, base) =>
      .ok { toLoadBalancer := base
            destinationsForRequest :=
              Function.update lb.destinationsForRequest request.requestType
                (some (RoundRobinLoadBalancer.convertToQueue destinations)) }

/-- The method `RoundRobinLoadBalancer::balanceLoad`: `front`, `pop`, `push` on the
queue of the request type (`operator[]` on a missing key gives an empty queue). -/
def RoundRobinLoadBalancer.balanceLoad (m : Memory) (lb : RoundRobinLoadBalancer)
    (request : Request) : Except Fault (Nat × RoundRobinLoadBalancer) :=
  match RoundRobinLoadBalancer.ensureQueue m lb request with
  | .error e => .error e
  | .ok lb1 =>
    match (lb1.destinationsForRequest request.requestType).getD [] with
    | [] => .error .emptyQueueFront
    | destination :: rest =>
      .ok (destination,
        { lb1 with
          destinationsForRequest :=
            Function.update lb1.destinationsForRequest request.requestType
              (some (rest ++ [destination])) })

/-- Consecutive `RoundRobinLoadBalancer::balanceLoad` calls, one per request of the
list, on an unchanged memory: the returned pointers in call order. -/
def RoundRobinLoadBalancer.balanceLoadSeq (m : Memory) :
    RoundRobinLoadBalancer → List Request → Except Fault (List Nat × RoundRobinLoadBalancer)
  | lb, [] => .ok ([], lb)
  | lb, r :: rs =>
    match RoundRobinLoadBalancer.balanceLoad m lb r with
    | .error e => .error e
    | .ok (d, lb1) =>
      match RoundRobinLoadBalancer.balanceLoadSeq m lb1 rs with
      | .error e => .error e
      | .ok (ds, lb2) => .ok (d :: ds, lb2)

/-! ## Sequences of calls on one `Destination` -/

/-- A call on a `Destination`. -/
inductive DestinationCall where
  | acceptRequest (request : Request)
  | completeRequest
  deriving DecidableEq, Repr

/-- The object after one call. -/
def Destination.call (d : Destination) : DestinationCall → Destination
  | .acceptRequest r => (d.acceptRequest r).2
  | .completeRequest => d.completeRequest

/-- The object after a sequence of calls, first call first. -/
def Destination.runCalls (d : Destination) (calls : List DestinationCall) : Destination :=
  calls.foldl Destination.call d

/-- The number of `acceptRequest` calls of the sequence that return `true` when the
sequence runs from `d`. -/
def Destination.acceptedCount : Destination → List DestinationCall → Nat
  | _, [] => 0
  | d, .acceptRequest r :: cs =>
    (if (d.acceptRequest r).1 then 1 else 0) + Destination.acceptedCount (d.acceptRequest r).2 cs
  | d, .completeRequest :: cs => Destination.acceptedCount d.completeRequest cs

/-- The number of `completeRequest` calls of the sequence. -/
def completedCount : List DestinationCall → Nat
  | [] => 0
  | .acceptRequest _ :: cs => completedCount cs
  | .completeRequest :: cs => completedCount cs + 1

/-- The counter of the object at `p` (`0` where no object lives); used to state what
the comparator of `min_element` compares. -/
def Memory.load (m : Memory) (p : Nat) : Int :=
  match m.destinations p with
  | some d => d.requestsBeingServed
  | none => 0

/-- The pointer refers to a `Destination` object: it is not null and an object lives
at its address. -/
def Memory.liveDestination (m : Memory) (p : Nat) : Prop :=
  p ≠ 0 ∧ ∃ d, m.destinations p = some d

/-- The round-robin balancer with the queue of request type `t` set to `q`. -/
def RoundRobinLoadBalancer.withQueue (lb : RoundRobinLoadBalancer) (t : RequestType)
    (q : List Nat) : RoundRobinLoadBalancer :=
  { lb with destinationsForRequest := Function.update lb.destinationsForRequest t (some q) }

/-! ## A concrete scene: the service of `main`, with two more destinations -/

/-- A request of type `TYPE_A`, the one `main` builds. -/
def demoRequest : Request :=
  { id := "12345", requestType := .TYPE_A, parameters := [("key", "value")] }

/-- Destinations at addresses `1`, `2`, `3` with capacity `5` and counters `2`, `4`, `2`;
the service at address `1` iterates `2, 1, 3`, the service at address `2` is empty
and the service at address `3` holds the destination at `3` only. -/
def demoMemory : Memory :=
  { destinations := fun p =>
      if p = 1 then some { ipAddress := "192.168.1.1", requestsBeingServed := 2, threshold := 5 }
      else if p = 2 then some { ipAddress := "192.168.1.2", requestsBeingServed := 4, threshold := 5 }
      else if p = 3 then some { ipAddress := "192.168.1.3", requestsBeingServed := 2, threshold := 5 }
      else none
    services := fun p =>
      if p = 1 then some { name := "Example Service", destinations := ⟨[2, 1, 3], by decide⟩ }
      else if p = 2 then some { name := "Empty Service", destinations := UnorderedSet.empty }
      else if p = 3 then some { name := "Other Service", destinations := ⟨[3], by decide⟩ }
      else none }

/-- A balancer with the example service registered for `TYPE_A`. -/
def demoBalancer : LoadBalancer := LoadBalancer.init.registerService .TYPE_A 1

/-! ## Two callers in `Destination::acceptRequest` -/

/-- The two callers of one `Destination`. -/
inductive Caller where
  | first
  | second
  deriving DecidableEq, Repr

/-- Where a caller stands in the body of `Destination::acceptRequest`: before the test
`requestsBeingServed < threshold`, past a test that held with `requestsBeingServed++`
still to come, or returned. -/
inductive CallPhase where
  | notStarted
  | testPassed
  | returned (result : Bool)
  deriving DecidableEq, Repr

/-- The shared `Destination` and the two callers. -/
structure Admission where
  destination : Destination
  first : CallPhase
  second : CallPhase
  deriving DecidableEq, Repr

/-- Both callers about to call `acceptRequest` on `d`. -/
def Admission.start (d : Destination) : Admission :=
  { destination := d, first := .notStarted, second := .notStarted }

/-- The phase of a caller. -/
def Admission.phase (s : Admission) : Caller → CallPhase
  | .first => s.first
  | .second => s.second

/-- The state with the phase of a caller set. -/
def Admission.setPhase (s : Admission) (c : Caller) (p : CallPhase) : Admission :=
  match c with
  | .first => { s with first := p }
  | .second => { s with second := p }

/-- The next step of caller `c` in `Destination::acceptRequest`: the test, which
returns `false` when it fails; after a test that held, the increment and `return true`.
The code holds no lock and the counter is a plain `int`, so nothing orders the steps
of the two callers. -/
def Admission.step (s : Admission) (c : Caller) : Admission :=
  match s.phase c with
  | .notStarted =>
    if s.destination.requestsBeingServed < s.destination.threshold then
      s.setPhase c .testPassed
    else
      s.setPhase c (.returned false)
  | .testPassed =>
    Admission.setPhase
      { s with
        destination :=
          { s.destination with
            requestsBeingServed := s.destination.requestsBeingServed + 1 } }
      c (.returned true)
  | .returned _ => s

/-- The steps taken in the order of the schedule: each entry names the caller that
moves next. -/
def Admission.run (s : Admission) (schedule : List Caller) : Admission :=
  schedule.foldl Admission.step s

/-! ## Further operations the claims speak of -/

/-- Consecutive `Destination::acceptRequest` calls, one per request of the list, with
nothing in between: the returned flags in call order and the object afterwards. -/
def Destination.acceptAll : Destination → List Request → List Bool × Destination
  | d, [] => ([], d)
  | d, r :: rs =>
    ((d.acceptRequest r).1 :: (Destination.acceptAll (d.acceptRequest r).2 rs).1,
     (Destination.acceptAll (d.acceptRequest r).2 rs).2)

/-- The call `service->addDestination(destination)` on the objects in memory. -/
def Memory.addDestination (m : Memory) (service destination : Nat) : Except Fault Memory :=
  match derefService m service with
  | .error e => .error e
  | .ok s =>
    .ok { m with
          services := Function.update m.services service (some (s.addDestination destination)) }

/-- The call `service->removeDestination(destination)` on the objects in memory. -/
def Memory.removeDestination (m : Memory) (service destination : Nat) : Except Fault Memory :=
  match derefService m service with
  | .error e => .error e
  | .ok s =>
    .ok { m with
          services :=
            Function.update m.services service (some (s.removeDestination destination)) }

/-- The method `LeastConnectionLoadBalancer::balanceLoad` as a step on the whole state,
objects and balancer: the body reads the objects (the copy of the set, the comparator)
and writes none of them; the balancer is written by `serviceMap[...]` only. -/
def LeastConnectionLoadBalancer.balanceLoadState (st : Memory × LoadBalancer)
    (request : Request) : Except Fault (Nat × (Memory × LoadBalancer)) :=
  match LeastConnectionLoadBalancer.balanceLoad st.1 st.2 request with
  | .error e => .error e
  | .ok (p, lb') => .ok (p, (st.1, lb'))

/-- Consecutive `RoundRobinLoadBalancer::balanceLoad` calls where each call finds the
memory given with it: anything may have happened to the objects between two calls. -/
def RoundRobinLoadBalancer.balanceLoadEach :
    RoundRobinLoadBalancer → List (Memory × Request) →
      Except Fault (List Nat × RoundRobinLoadBalancer)
  | lb, [] => .ok ([], lb)
  | lb, (m, r) :: rest =>
    match RoundRobinLoadBalancer.balanceLoad m lb r with
    | .error e => .error e
    | .ok (d, lb1) =>
      match RoundRobinLoadBalancer.balanceLoadEach lb1 rest with
      | .error e => .error e
      | .ok (ds, lb2) => .ok (d :: ds, lb2)

/-- The round-robin balancer can serve request type `t`: it has a non-empty queue for
it, or it has none and a live service with a non-empty set is registered for it. -/
def RoundRobinLoadBalancer.ready (m : Memory) (lb : RoundRobinLoadBalancer)
    (t : RequestType) : Prop :=
  (∃ q, lb.destinationsForRequest t = some q ∧ q ≠ []) ∨
  (lb.destinationsForRequest t = none ∧
    ∃ sp svc, lb.serviceMap t = some sp ∧ sp ≠ 0 ∧ m.services sp = some svc ∧
      svc.destinations.elems ≠ [])

/-- Of the results `ds` of the calls for `rs`, those of the calls for request type `t`. -/
def resultsFor (t : RequestType) (rs : List Request) (ds : List Nat) : List Nat :=
  ((rs.zip ds).filter (fun x => decide (x.1.requestType = t))).map Prod.snd

/-- The example memory with the example service iterating `1, 2, 3` instead of
`2, 1, 3`: the same set in another iteration order. -/
def demoMemoryReordered : Memory :=
  { demoMemory with
    services := fun p =>
      if p = 1 then some { name := "Example Service", destinations := ⟨[1, 2, 3], by decide⟩ }
      else demoMemory.services p }

/-- The example memory after `removeDestination` of the destination at address `2`
and `addDestination` of a destination at address `7` on the example service. -/
def demoMemoryMutated : Memory :=
  match demoMemory.removeDestination 1 2 with
  | .error _ => demoMemory
  | .ok m1 =>
    match m1.addDestination 1 7 with
    | .error _ => demoMemory
    | .ok m2 => m2

/-- The queue a `RoundRobinLoadBalancer::balanceLoad` call works on: the one stored
for the request type, or the one the call builds when there is none. -/
def RoundRobinLoadBalancer.queueAt (m : Memory) (lb : RoundRobinLoadBalancer)
    (request : Request) : Except Fault (List Nat) :=
  match lb.destinationsForRequest request.requestType with
  | some q => .ok q
  | none =>
    match lb.toLoadBalancer.getDestinations m request with
    | .error e => .error e
    | .ok (destinations, _) => .ok (RoundRobinLoadBalancer.convertToQueue destinations)

/-! ## Lemmas on the base class -/

theorem derefService_live (m : Memory) (p : Nat) (s : Service) (hp : p ≠ 0)
    (hs : m.services p = some s) : derefService m p = .ok s := by
  simp [derefService, hp, hs]

theorem derefDestination_live (m : Memory) (p : Nat) (d : Destination) (hp : p ≠ 0)
    (hd : m.destinations p = some d) : derefDestination m p = .ok d := by
  simp [derefDestination, hp, hd]

theorem derefDestination_error (m : Memory) (p : Nat) (e : Fault)
    (h : derefDestination m p = .error e) :
    e = .nullDereference ∨ e = .invalidDereference := by
  unfold derefDestination at h
  split at h
  · left; cases h; rfl
  · split at h
    · cases h
    · right; cases h; rfl

/-- A registered type whose pointer refers to a live `Service`: `getDestinations`
returns its set and leaves the balancer as it was. -/
theorem getDestinations_registered (m : Memory) (lb : LoadBalancer) (request : Request)
    (sp : Nat) (svc : Service) (hreg : lb.serviceMap request.requestType = some sp)
    (hsp : sp ≠ 0) (hsvc : m.services sp = some svc) :
    lb.getDestinations m request = .ok (svc.destinations, lb) := by
  simp [LoadBalancer.getDestinations, LoadBalancer.serviceMapIndex, hreg,
    derefService_live m sp svc hsp hsvc]

/-- A type that was never registered: `serviceMap[...]` yields a null pointer and
`getDestinations` dereferences it. -/
theorem getDestinations_unregistered (m : Memory) (lb : LoadBalancer) (request : Request)
    (hreg : lb.serviceMap request.requestType = none) :
    lb.getDestinations m request = .error .nullDereference := by
  simp [LoadBalancer.getDestinations, LoadBalancer.serviceMapIndex, hreg, derefService]

/-! ## Lemmas on `min_element` -/

theorem comp_live (m : Memory) (a b : Nat) (ha : m.liveDestination a)
    (hb : m.liveDestination b) :
    LeastConnectionLoadBalancer.comp m a b = .ok (decide (m.load a < m.load b)) := by
  obtain ⟨ha0, da, hda⟩ := ha
  obtain ⟨hb0, db, hdb⟩ := hb
  simp [LeastConnectionLoadBalancer.comp, derefDestination_live m a da ha0 hda,
    derefDestination_live m b db hb0 hdb, Memory.load, hda, hdb]

theorem comp_error (m : Memory) (a b : Nat) (e : Fault)
    (h : LeastConnectionLoadBalancer.comp m a b = .error e) :
    e = .nullDereference ∨ e = .invalidDereference := by
  unfold LeastConnectionLoadBalancer.comp at h
  split at h
  · next e1 h1 => cases h; exact derefDestination_error m a _ h1
  · split at h
    · next e2 h2 => cases h; exact derefDestination_error m b _ h2
    · cases h

/-- The loop of `min_element` on live pointers ends at a position holding a pointer of
least counter among the start value and everything scanned. -/
theorem minElementLoop_spec (m : Memory) :
    ∀ (rest : List Nat) (first smallest sv : Nat),
      (∀ p ∈ rest, m.liveDestination p) → m.liveDestination sv →
      ∃ i v, minElementLoop m rest first smallest sv = .ok i ∧
        ((i = smallest ∧ v = sv) ∨ (first ≤ i ∧ rest[i - first]? = some v)) ∧
        m.load v ≤ m.load sv ∧ ∀ p ∈ rest, m.load v ≤ m.load p := by
  intro rest
  induction rest with
  | nil =>
    intro first smallest sv _ _
    exact ⟨smallest, sv, rfl, Or.inl ⟨rfl, rfl⟩, le_refl _, by simp⟩
  | cons x rest ih =>
    intro first smallest sv hrest hsv
    have hx : m.liveDestination x := hrest x (List.mem_cons_self _ _)
    have hrest' : ∀ p ∈ rest, m.liveDestination p :=
      fun p hp => hrest p (List.mem_cons_of_mem _ hp)
    by_cases hlt : m.load x < m.load sv
    · obtain ⟨i, v, hrun, hpos, hle, hall⟩ := ih (first + 1) first x hrest' hx
      refine ⟨i, v, ?_, ?_, ?_, ?_⟩
      · simp [minElementLoop, comp_live m x sv hx hsv, hlt, hrun]
      · right
        rcases hpos with ⟨hi, hv⟩ | ⟨hi, hv⟩
        · subst hi; subst hv; simp
        · refine ⟨by omega, ?_⟩
          have : i - first = (i - (first + 1)) + 1 := by omega
          rw [this, List.getElem?_cons_succ]; exact hv
      · exact le_trans hle (le_of_lt hlt)
      · intro p hp
        rcases List.mem_cons.mp hp with rfl | hp
        · exact hle
        · exact hall p hp
    · obtain ⟨i, v, hrun, hpos, hle, hall⟩ := ih (first + 1) smallest sv hrest' hsv
      refine ⟨i, v, ?_, ?_, hle, ?_⟩
      · simp [minElementLoop, comp_live m x sv hx hsv, hlt, hrun]
      · rcases hpos with h | ⟨hi, hv⟩
        · exact Or.inl h
        · right
          refine ⟨by omega, ?_⟩
          have : i - first = (i - (first + 1)) + 1 := by omega
          rw [this, List.getElem?_cons_succ]; exact hv
      · intro p hp
        rcases List.mem_cons.mp hp with rfl | hp
        · exact le_trans hle (not_lt.mp hlt)
        · exact hall p hp

/-- On a non-empty range of live pointers `min_element` returns the position of a
pointer whose counter is least. -/
theorem min_element_spec (m : Memory) (l : List Nat) (hne : l ≠ [])
    (hlive : ∀ p ∈ l, m.liveDestination p) :
    ∃ i v, min_element m l = .ok i ∧ l[i]? = some v ∧ ∀ p ∈ l, m.load v ≤ m.load p := by
  cases l with
  | nil => exact absurd rfl hne
  | cons x rest =>
    obtain ⟨i, v, hrun, hpos, hle, hall⟩ :=
      minElementLoop_spec m rest 1 0 x (fun p hp => hlive p (List.mem_cons_of_mem _ hp))
        (hlive x (List.mem_cons_self _ _))
    refine ⟨i, v, hrun, ?_, ?_⟩
    · rcases hpos with ⟨hi, hv⟩ | ⟨hi, hv⟩
      · subst hi; subst hv; simp
      · have : i = (i - 1) + 1 := by omega
        rw [this, List.getElem?_cons_succ]; exact hv
    · intro p hp
      rcases List.mem_cons.mp hp with rfl | hp
      · exact hle
      · exact hall p hp

/-- Whatever the pointers are, the loop returns the start position or a position it
scanned, and a fault of it is a bad dereference. -/
theorem minElementLoop_range (m : Memory) :
    ∀ (rest : List Nat) (first smallest sv : Nat),
      (∀ i, minElementLoop m rest first smallest sv = .ok i →
        i = smallest ∨ (first ≤ i ∧ i < first + rest.length)) ∧
      (∀ e, minElementLoop m rest first smallest sv = .error e →
        e = .nullDereference ∨ e = .invalidDereference) := by
  intro rest
  induction rest with
  | nil =>
    intro first smallest sv
    constructor
    · intro i h; left; simp [minElementLoop] at h; exact h.symm
    · intro e h; simp [minElementLoop] at h
  | cons x rest ih =>
    intro first smallest sv
    unfold minElementLoop
    split
    · next e1 h1 =>
      constructor
      · intro i h; cases h
      · intro e h; cases h; exact comp_error m x sv _ h1
    · obtain ⟨h1, h2⟩ := ih (first + 1) first x
      constructor
      · intro i h
        rcases h1 i h with h | ⟨ha, hb⟩
        · right; simp only [List.length_cons]; omega
        · right; simp only [List.length_cons]; omega
      · exact h2
    · obtain ⟨h1, h2⟩ := ih (first + 1) smallest sv
      constructor
      · intro i h
        rcases h1 i h with h | ⟨ha, hb⟩
        · left; exact h
        · right; simp only [List.length_cons]; omega
      · exact h2

/-- On a non-empty range `min_element` never returns `end()`, and it throws nothing. -/
theorem min_element_range (m : Memory) (l : List Nat) (hne : l ≠ []) :
    (∀ i, min_element m l = .ok i → i < l.length) ∧
    (∀ e, min_element m l = .error e → e = .nullDereference ∨ e = .invalidDereference) := by
  cases l with
  | nil => exact absurd rfl hne
  | cons x rest =>
    obtain ⟨h1, h2⟩ := minElementLoop_range m rest 1 0 x
    constructor
    · intro i h
      rcases h1 i h with h | ⟨ha, hb⟩
      · simp [h]
      · simp only [List.length_cons]; omega
    · exact h2

/-! ## `Destination::acceptRequest` -/

/-- C2: `acceptRequest` returns `true` and adds exactly one to `requestsBeingServed`
when `requestsBeingServed < threshold`; otherwise it returns `false` and leaves the
whole object as it was. In both cases `threshold` and `ipAddress` stay the same. -/
theorem acceptRequest_contract (d : Destination) (request : Request) :
    (d.requestsBeingServed < d.threshold →
      d.acceptRequest request =
        (true, { ipAddress := d.ipAddress, requestsBeingServed := d.requestsBeingServed + 1,
                 threshold := d.threshold })) ∧
    (¬ d.requestsBeingServed < d.threshold → d.acceptRequest request = (false, d)) ∧
    (d.acceptRequest request).2.threshold = d.threshold ∧
    (d.acceptRequest request).2.ipAddress = d.ipAddress := by
  unfold Destination.acceptRequest
  by_cases h : d.requestsBeingServed < d.threshold <;> simp [h]

/-- C2 at concrete objects: a destination at `2` of `5` admits and goes to `3`, a
destination at `5` of `5` rejects and stays as it is. -/
theorem acceptRequest_contract_witness :
    (Destination.mk "192.168.1.1" 2 5).acceptRequest demoRequest =
        (true, Destination.mk "192.168.1.1" 3 5) ∧
    (Destination.mk "192.168.1.1" 5 5).acceptRequest demoRequest =
        (false, Destination.mk "192.168.1.1" 5 5) :=
  ⟨(acceptRequest_contract (Destination.mk "192.168.1.1" 2 5) demoRequest).1 (by decide),
   (acceptRequest_contract (Destination.mk "192.168.1.1" 5 5) demoRequest).2.1 (by decide)⟩

/-! ## `LeastConnectionLoadBalancer::balanceLoad` -/

/-- What `LeastConnectionLoadBalancer::balanceLoad` returns on a registered service
with a non-empty set of live destinations. -/
theorem leastConnection_balanceLoad_spec (m : Memory) (lb : LoadBalancer) (request : Request)
    (sp : Nat) (svc : Service) (hreg : lb.serviceMap request.requestType = some sp)
    (hsp : sp ≠ 0) (hsvc : m.services sp = some svc)
    (hne : svc.destinations.elems ≠ [])
    (hlive : ∀ p ∈ svc.destinations.elems, m.liveDestination p) :
    ∃ p d, LeastConnectionLoadBalancer.balanceLoad m lb request = .ok (p, lb) ∧
      p ∈ svc.destinations.elems ∧ m.destinations p = some d ∧
      ∀ q ∈ svc.destinations.elems, ∀ e, m.destinations q = some e →
        d.requestsBeingServed ≤ e.requestsBeingServed := by
  obtain ⟨i, v, hmin, hget, hall⟩ := min_element_spec m svc.destinations.elems hne hlive
  have hmem : v ∈ svc.destinations.elems := List.getElem?_mem hget
  obtain ⟨_, d, hd⟩ := hlive v hmem
  have hi : i < svc.destinations.elems.length := by
    by_contra hcon
    rw [List.getElem?_eq_none (not_lt.mp hcon)] at hget
    cases hget
  refine ⟨v, d, ?_, hmem, hd, ?_⟩
  · simp [LeastConnectionLoadBalancer.balanceLoad,
      getDestinations_registered m lb request sp svc hreg hsp hsvc, hmin, hget,
      Nat.ne_of_lt hi]
  · intro q hq e he
    have := hall q hq
    simpa [Memory.load, hd, he] using this

/-- C1: for a registered service with a non-empty set of live destinations,
`LeastConnectionLoadBalancer::balanceLoad` returns a member of the set whose
`requestsBeingServed` is at most that of every destination of the set. -/
theorem leastConnection_returns_least (m : Memory) (lb : LoadBalancer) (request : Request)
    (sp : Nat) (svc : Service) (hreg : lb.serviceMap request.requestType = some sp)
    (hsp : sp ≠ 0) (hsvc : m.services sp = some svc)
    (hne : svc.destinations.elems ≠ [])
    (hlive : ∀ p ∈ svc.destinations.elems, m.liveDestination p) :
    ∃ p d, LeastConnectionLoadBalancer.balanceLoad m lb request = .ok (p, lb) ∧
      p ∈ svc.destinations.elems ∧ m.destinations p = some d ∧
      ∀ q ∈ svc.destinations.elems, ∀ e, m.destinations q = some e →
        d.requestsBeingServed ≤ e.requestsBeingServed :=
  leastConnection_balanceLoad_spec m lb request sp svc hreg hsp hsvc hne hlive

/-- C1 on the example service: D1 (address `1`) at `2` and D2 (address `2`) at `4`
(and a third destination at `2`, later in iteration order): the balancer returns D1. -/
theorem leastConnection_returns_least_witness :
    (∃ p d, LeastConnectionLoadBalancer.balanceLoad demoMemory demoBalancer demoRequest
        = .ok (p, demoBalancer) ∧
      p ∈ [2, 1, 3] ∧ demoMemory.destinations p = some d ∧
      ∀ q ∈ [2, 1, 3], ∀ e, demoMemory.destinations q = some e →
        d.requestsBeingServed ≤ e.requestsBeingServed) ∧
    (LeastConnectionLoadBalancer.balanceLoad demoMemory demoBalancer demoRequest).map Prod.fst
      = .ok 1 :=
  ⟨leastConnection_returns_least demoMemory demoBalancer demoRequest 1
      { name := "Example Service", destinations := ⟨[2, 1, 3], by decide⟩ }
      rfl (by decide) rfl (by simp)
      (by
        intro p hp
        simp only [List.mem_cons, List.mem_singleton, List.not_mem_nil, or_false] at hp
        rcases hp with rfl | rfl | rfl
        · exact ⟨by decide, _, rfl⟩
        · exact ⟨by decide, _, rfl⟩
        · exact ⟨by decide, _, rfl⟩),
   rfl⟩

/-- C7: for a registered live service, `LeastConnectionLoadBalancer::balanceLoad` throws
`runtime_error("No destination available")` when the destination set is empty, throws
a `runtime_error` only then, and returns a destination when the set is non-empty and
its pointers are live. -/
theorem leastConnection_throws_iff_empty (m : Memory) (lb : LoadBalancer) (request : Request)
    (sp : Nat) (svc : Service) (hreg : lb.serviceMap request.requestType = some sp)
    (hsp : sp ≠ 0) (hsvc : m.services sp = some svc) :
    (svc.destinations.elems = [] →
      LeastConnectionLoadBalancer.balanceLoad m lb request
        = .error (.runtime_error "No destination available")) ∧
    ((∃ what, LeastConnectionLoadBalancer.balanceLoad m lb request
        = .error (.runtime_error what)) → svc.destinations.elems = []) ∧
    (svc.destinations.elems ≠ [] → (∀ p ∈ svc.destinations.elems, m.liveDestination p) →
      ∃ p, LeastConnectionLoadBalancer.balanceLoad m lb request = .ok (p, lb)) := by
  have hget := getDestinations_registered m lb request sp svc hreg hsp hsvc
  refine ⟨?_, ?_, ?_⟩
  · intro hempty
    simp [LeastConnectionLoadBalancer.balanceLoad, hget, hempty, min_element]
  · rintro ⟨what, hthrow⟩
    by_contra hne
    obtain ⟨hok, herr⟩ := min_element_range m svc.destinations.elems hne
    simp only [LeastConnectionLoadBalancer.balanceLoad, hget] at hthrow
    split at hthrow
    · next e he =>
      cases hthrow
      rcases herr _ he with h | h <;> cases h
    · next i hi =>
      have hlt := hok i hi
      rw [if_pos (Nat.ne_of_lt hlt)] at hthrow
      split at hthrow
      · cases hthrow
      · cases hthrow
  · intro hne hlive
    obtain ⟨p, d, hrun, _⟩ :=
      leastConnection_balanceLoad_spec m lb request sp svc hreg hsp hsvc hne hlive
    exact ⟨p, hrun⟩

/-- C7 on the example memory: with the empty service registered the balancer throws,
with the example service it returns. -/
theorem leastConnection_throws_iff_empty_witness :
    LeastConnectionLoadBalancer.balanceLoad demoMemory
        (LoadBalancer.init.registerService .TYPE_A 2) demoRequest
      = .error (.runtime_error "No destination available") ∧
    (∃ p, LeastConnectionLoadBalancer.balanceLoad demoMemory demoBalancer demoRequest
        = .ok (p, demoBalancer)) :=
  ⟨(leastConnection_throws_iff_empty demoMemory (LoadBalancer.init.registerService .TYPE_A 2)
      demoRequest 2 { name := "Empty Service", destinations := UnorderedSet.empty }
      rfl (by decide) rfl).1 rfl,
   (leastConnection_throws_iff_empty demoMemory demoBalancer demoRequest 1
      { name := "Example Service", destinations := ⟨[2, 1, 3], by decide⟩ }
      rfl (by decide) rfl).2.2 (by simp)
      (by
        intro p hp
        simp only [List.mem_cons, List.mem_singleton, List.not_mem_nil, or_false] at hp
        rcases hp with rfl | rfl | rfl
        · exact ⟨by decide, _, rfl⟩
        · exact ⟨by decide, _, rfl⟩
        · exact ⟨by decide, _, rfl⟩)⟩

/-! ## `RoutedLoadBalancer::balanceLoad` -/

/-- What `RoutedLoadBalancer::balanceLoad` returns on a registered service with a
non-empty set: the element at position `hash(id) % size` of the iteration order; the
balancer stays as it was. -/
theorem routed_balanceLoad_spec (hash : String → Nat) (m : Memory) (lb : LoadBalancer)
    (request : Request) (sp : Nat) (svc : Service)
    (hreg : lb.serviceMap request.requestType = some sp)
    (hsp : sp ≠ 0) (hsvc : m.services sp = some svc) (hne : svc.destinations.elems ≠ []) :
    ∃ p, RoutedLoadBalancer.balanceLoad hash m lb request = .ok (p, lb) ∧
      svc.destinations.elems[hash request.id % svc.destinations.elems.length]? = some p ∧
      p ∈ svc.destinations.elems := by
  have hlen : svc.destinations.elems.length ≠ 0 := by
    intro h; exact hne (List.length_eq_zero.mp h)
  have hlt : hash request.id % svc.destinations.elems.length < svc.destinations.elems.length :=
    Nat.mod_lt _ (Nat.pos_of_ne_zero hlen)
  refine ⟨svc.destinations.elems.get ⟨_, hlt⟩, ?_, ?_, List.get_mem _ _ _⟩
  · simp [RoutedLoadBalancer.balanceLoad,
      getDestinations_registered m lb request sp svc hreg hsp hsvc, hlen]
  · simp [List.getElem?_eq_getElem hlt]

/-- What `RoutedLoadBalancer::balanceLoad` does on a registered service with an empty
set: `hash(id) % 0`. -/
theorem routed_balanceLoad_empty (hash : String → Nat) (m : Memory) (lb : LoadBalancer)
    (request : Request) (sp : Nat) (svc : Service)
    (hreg : lb.serviceMap request.requestType = some sp)
    (hsp : sp ≠ 0) (hsvc : m.services sp = some svc) (hempty : svc.destinations.elems = []) :
    RoutedLoadBalancer.balanceLoad hash m lb request = .error .moduloByZero := by
  simp [RoutedLoadBalancer.balanceLoad,
    getDestinations_registered m lb request sp svc hreg hsp hsvc, hempty]

/-- C4: for a registered service with a non-empty set, two successive
`RoutedLoadBalancer::balanceLoad` calls for requests with the same id and type, with
nothing changed in between, both return, and return the same destination. -/
theorem routed_deterministic (hash : String → Nat) (m : Memory) (lb : LoadBalancer)
    (request1 request2 : Request) (sp : Nat) (svc : Service)
    (hid : request2.id = request1.id) (htype : request2.requestType = request1.requestType)
    (hreg : lb.serviceMap request1.requestType = some sp)
    (hsp : sp ≠ 0) (hsvc : m.services sp = some svc) (hne : svc.destinations.elems ≠ []) :
    ∃ p lb1 lb2, RoutedLoadBalancer.balanceLoad hash m lb request1 = .ok (p, lb1) ∧
      RoutedLoadBalancer.balanceLoad hash m lb1 request2 = .ok (p, lb2) := by
  obtain ⟨p, hrun, hget, _⟩ := routed_balanceLoad_spec hash m lb request1 sp svc hreg hsp hsvc hne
  obtain ⟨q, hrun2, hget2, _⟩ :=
    routed_balanceLoad_spec hash m lb request2 sp svc (htype ▸ hreg) hsp hsvc hne
  rw [hid, hget] at hget2
  cases hget2
  exact ⟨p, lb, lb, hrun, hrun2⟩

/-- C4 on the example service, with the length of the id as hash: both calls return
the destination at address `3`. -/
theorem routed_deterministic_witness :
    (∃ p lb1 lb2,
      RoutedLoadBalancer.balanceLoad String.length demoMemory demoBalancer demoRequest
        = .ok (p, lb1) ∧
      RoutedLoadBalancer.balanceLoad String.length demoMemory lb1
        { demoRequest with parameters := [] } = .ok (p, lb2)) ∧
    (RoutedLoadBalancer.balanceLoad String.length demoMemory demoBalancer demoRequest).map
      Prod.fst = .ok 3 :=
  ⟨routed_deterministic String.length demoMemory demoBalancer demoRequest
      { demoRequest with parameters := [] } 1
      { name := "Example Service", destinations := ⟨[2, 1, 3], by decide⟩ }
      rfl rfl rfl (by decide) rfl (by simp),
   rfl⟩

/-- C8: on the empty service of the example memory, registered for `TYPE_A`,
`RoutedLoadBalancer::balanceLoad` evaluates `hash(id) % 0` whatever the hash is: no
guard, no exception. -/
theorem routed_empty_set_modulo_by_zero (hash : String → Nat) :
    RoutedLoadBalancer.balanceLoad hash demoMemory
      (LoadBalancer.init.registerService .TYPE_A 2) demoRequest = .error .moduloByZero :=
  rfl

/-! ## Lemmas on `RoundRobinLoadBalancer` -/

theorem withQueue_queue (lb : RoundRobinLoadBalancer) (t : RequestType) (q : List Nat) :
    (lb.withQueue t q).destinationsForRequest t = some q := by
  simp [RoundRobinLoadBalancer.withQueue]

theorem withQueue_serviceMap (lb : RoundRobinLoadBalancer) (t : RequestType) (q : List Nat) :
    (lb.withQueue t q).serviceMap = lb.serviceMap := rfl

theorem withQueue_withQueue (lb : RoundRobinLoadBalancer) (t : RequestType)
    (q q' : List Nat) : (lb.withQueue t q).withQueue t q' = lb.withQueue t q' := by
  simp [RoundRobinLoadBalancer.withQueue]

theorem withQueue_self (lb : RoundRobinLoadBalancer) (t : RequestType) (q : List Nat)
    (h : lb.destinationsForRequest t = some q) : lb.withQueue t q = lb := by
  cases lb
  simp only [RoundRobinLoadBalancer.withQueue, RoundRobinLoadBalancer.mk.injEq, true_and]
  rw [← h]
  exact Function.update_eq_self _ _

theorem foldl_push (l : List Nat) :
    ∀ acc : List Nat, l.foldl (fun q d => q ++ [d]) acc = acc ++ l := by
  induction l with
  | nil => intro acc; simp
  | cons x l ih => intro acc; simp [ih]

/-- The queue `convertToQueue` builds is the iteration order of the set. -/
theorem convertToQueue_eq (s : UnorderedSet) :
    RoundRobinLoadBalancer.convertToQueue s = s.elems := by
  simp [RoundRobinLoadBalancer.convertToQueue, foldl_push]

/-- A call with a non-empty queue in place: the front is returned and moved to the back. -/
theorem roundRobin_balanceLoad_queue (m : Memory) (lb : RoundRobinLoadBalancer)
    (request : Request) (d : Nat) (rest : List Nat)
    (hq : lb.destinationsForRequest request.requestType = some (d :: rest)) :
    RoundRobinLoadBalancer.balanceLoad m lb request
      = .ok (d, lb.withQueue request.requestType (rest ++ [d])) := by
  simp [RoundRobinLoadBalancer.balanceLoad, RoundRobinLoadBalancer.ensureQueue, hq,
    RoundRobinLoadBalancer.withQueue]

/-- The first call for a request type: the queue is built from the registered
service and the call goes on as if it had been there. -/
theorem roundRobin_balanceLoad_first (m : Memory) (lb : RoundRobinLoadBalancer)
    (request : Request) (sp : Nat) (svc : Service)
    (hq : lb.destinationsForRequest request.requestType = none)
    (hreg : lb.serviceMap request.requestType = some sp)
    (hsp : sp ≠ 0) (hsvc : m.services sp = some svc) :
    RoundRobinLoadBalancer.balanceLoad m lb request
      = RoundRobinLoadBalancer.balanceLoad m
          (lb.withQueue request.requestType svc.destinations.elems) request := by
  simp [RoundRobinLoadBalancer.balanceLoad, RoundRobinLoadBalancer.ensureQueue, hq,
    getDestinations_registered m lb.toLoadBalancer request sp svc hreg hsp hsvc,
    convertToQueue_eq, RoundRobinLoadBalancer.withQueue]

/-- The first call for a request type whose registered service has an empty set:
`front()` of an empty queue. -/
theorem roundRobin_balanceLoad_first_empty (m : Memory) (lb : RoundRobinLoadBalancer)
    (request : Request) (sp : Nat) (svc : Service)
    (hq : lb.destinationsForRequest request.requestType = none)
    (hreg : lb.serviceMap request.requestType = some sp)
    (hsp : sp ≠ 0) (hsvc : m.services sp = some svc) (hempty : svc.destinations.elems = []) :
    RoundRobinLoadBalancer.balanceLoad m lb request = .error .emptyQueueFront := by
  simp [RoundRobinLoadBalancer.balanceLoad, RoundRobinLoadBalancer.ensureQueue, hq,
    getDestinations_registered m lb.toLoadBalancer request sp svc hreg hsp hsvc,
    convertToQueue_eq, hempty]

/-- The first call for a request type that was never registered: the null pointer
`serviceMap[...]` yields is dereferenced. -/
theorem roundRobin_balanceLoad_unregistered (m : Memory) (lb : RoundRobinLoadBalancer)
    (request : Request)
    (hq : lb.destinationsForRequest request.requestType = none)
    (hreg : lb.serviceMap request.requestType = none) :
    RoundRobinLoadBalancer.balanceLoad m lb request = .error .nullDereference := by
  simp [RoundRobinLoadBalancer.balanceLoad, RoundRobinLoadBalancer.ensureQueue, hq,
    getDestinations_unregistered m lb.toLoadBalancer request hreg]

/-- Calls one after the other: the results are appended. -/
theorem balanceLoadSeq_append (m : Memory) :
    ∀ (rs1 rs2 : List Request) (lb lb1 lb2 : RoundRobinLoadBalancer) (ds1 ds2 : List Nat),
      RoundRobinLoadBalancer.balanceLoadSeq m lb rs1 = .ok (ds1, lb1) →
      RoundRobinLoadBalancer.balanceLoadSeq m lb1 rs2 = .ok (ds2, lb2) →
      RoundRobinLoadBalancer.balanceLoadSeq m lb (rs1 ++ rs2) = .ok (ds1 ++ ds2, lb2) := by
  intro rs1
  induction rs1 with
  | nil =>
    intro rs2 lb lb1 lb2 ds1 ds2 h1 h2
    simp only [RoundRobinLoadBalancer.balanceLoadSeq, Except.ok.injEq, Prod.mk.injEq] at h1
    obtain ⟨rfl, rfl⟩ := h1
    simpa using h2
  | cons r rs1 ih =>
    intro rs2 lb lb1 lb2 ds1 ds2 h1 h2
    simp only [RoundRobinLoadBalancer.balanceLoadSeq, List.cons_append] at h1 ⊢
    split at h1
    · cases h1
    · next d lbm hcall =>
      split at h1
      · cases h1
      · next ds lbe hseq =>
        simp only [Except.ok.injEq, Prod.mk.injEq] at h1
        obtain ⟨rfl, rfl⟩ := h1
        simp [ih rs2 lbm lbe lb2 ds ds2 hseq h2]

/-- As many calls as the front part `a` of the queue `a ++ b` is long return `a` in
order and leave the queue `b ++ a`. -/
theorem balanceLoadSeq_front (m : Memory) (t : RequestType) :
    ∀ (a b : List Nat) (lb : RoundRobinLoadBalancer) (rs : List Request),
      lb.destinationsForRequest t = some (a ++ b) → rs.length = a.length →
      (∀ r ∈ rs, r.requestType = t) →
      RoundRobinLoadBalancer.balanceLoadSeq m lb rs = .ok (a, lb.withQueue t (b ++ a)) := by
  intro a
  induction a with
  | nil =>
    intro b lb rs hq hlen _
    have : rs = [] := List.length_eq_zero.mp hlen
    subst this
    simp only [List.nil_append] at hq
    simp [RoundRobinLoadBalancer.balanceLoadSeq, withQueue_self lb t b hq]
  | cons x a ih =>
    intro b lb rs hq hlen htype
    cases rs with
    | nil => simp at hlen
    | cons r rs =>
      have hr : r.requestType = t := htype r (List.mem_cons_self _ _)
      have hcall := roundRobin_balanceLoad_queue m lb r x (a ++ b) (by rw [hr]; exact hq)
      rw [hr] at hcall
      have hnext := ih (b ++ [x]) (lb.withQueue t (a ++ b ++ [x])) rs
        (by rw [withQueue_queue]; simp)
        (by simpa using hlen)
        (fun r' hr' => htype r' (List.mem_cons_of_mem _ hr'))
      simp only [RoundRobinLoadBalancer.balanceLoadSeq, hcall, hnext, withQueue_withQueue]
      simp

/-- Any number of calls for one request type on a non-empty queue return members of the
queue and leave a rearrangement of it. -/
theorem balanceLoadSeq_queue (m : Memory) (t : RequestType) :
    ∀ (rs : List Request) (lb : RoundRobinLoadBalancer) (q : List Nat),
      lb.destinationsForRequest t = some q → q ≠ [] →
      (∀ r ∈ rs, r.requestType = t) →
      ∃ ds q', RoundRobinLoadBalancer.balanceLoadSeq m lb rs = .ok (ds, lb.withQueue t q') ∧
        q'.Perm q ∧ ds.length = rs.length ∧ ∀ d ∈ ds, d ∈ q := by
  intro rs
  induction rs with
  | nil =>
    intro lb q hq _ _
    exact ⟨[], q, by simp [RoundRobinLoadBalancer.balanceLoadSeq, withQueue_self lb t q hq],
      List.Perm.refl _, rfl, by simp⟩
  | cons r rs ih =>
    intro lb q hq hne htype
    cases q with
    | nil => exact absurd rfl hne
    | cons x rest =>
      have hr : r.requestType = t := htype r (List.mem_cons_self _ _)
      have hcall := roundRobin_balanceLoad_queue m lb r x rest (by rw [hr]; exact hq)
      rw [hr] at hcall
      obtain ⟨ds, q', hseq, hperm, hlen, hmem⟩ :=
        ih (lb.withQueue t (rest ++ [x])) (rest ++ [x]) (withQueue_queue _ _ _) (by simp)
          (fun r' hr' => htype r' (List.mem_cons_of_mem _ hr'))
      refine ⟨x :: ds, q', ?_, ?_, by simp [hlen], ?_⟩
      · simp only [RoundRobinLoadBalancer.balanceLoadSeq, hcall, hseq, withQueue_withQueue]
      · exact hperm.trans (List.perm_append_singleton x rest)
      · intro d hd
        rcases List.mem_cons.mp hd with rfl | hd
        · exact List.mem_cons_self _ _
        · have := hmem d hd
          simp only [List.mem_append, List.mem_singleton] at this
          rcases this with h | h
          · exact List.mem_cons_of_mem _ h
          · rw [h]; exact List.mem_cons_self _ _

/-- The first call builds the queue: a non-empty run of calls for a request type
without queue goes as if the queue had been the iteration order of the registered set. -/
theorem balanceLoadSeq_first (m : Memory) (t : RequestType) (lb : RoundRobinLoadBalancer)
    (sp : Nat) (svc : Service) (rs : List Request)
    (hq : lb.destinationsForRequest t = none) (hreg : lb.serviceMap t = some sp)
    (hsp : sp ≠ 0) (hsvc : m.services sp = some svc) (hrs : rs ≠ [])
    (htype : ∀ r ∈ rs, r.requestType = t) :
    RoundRobinLoadBalancer.balanceLoadSeq m lb rs
      = RoundRobinLoadBalancer.balanceLoadSeq m (lb.withQueue t svc.destinations.elems) rs := by
  cases rs with
  | nil => exact absurd rfl hrs
  | cons r rs =>
    have hr : r.requestType = t := htype r (List.mem_cons_self _ _)
    have h := roundRobin_balanceLoad_first m lb r sp svc (by rw [hr]; exact hq)
      (by rw [hr]; exact hreg) hsp hsvc
    rw [hr] at h
    simp only [RoundRobinLoadBalancer.balanceLoadSeq, h]

/-- The cycle of the round-robin queue: from a queue `q` of length `N`, after `k` calls
the next `N` calls return a rearrangement of `q` and the call after them returns what
the first of the `N` returned. -/
theorem balanceLoadSeq_cycle (m : Memory) (t : RequestType) (lb : RoundRobinLoadBalancer)
    (q : List Nat) (k : Nat) (rs : List Request)
    (hq : lb.destinationsForRequest t = some q) (hne : q ≠ [])
    (htype : ∀ r ∈ rs, r.requestType = t) (hlen : rs.length = k + q.length + 1) :
    ∃ ds lb', RoundRobinLoadBalancer.balanceLoadSeq m lb rs = .ok (ds, lb') ∧
      ds.length = rs.length ∧ ((ds.drop k).take q.length).Perm q ∧
      ds[k + q.length]? = ds[k]? ∧ (ds[k]?).isSome := by
  -- split the requests: `k`, then `N`, then one
  have hsplit : rs = rs.take k ++ ((rs.drop k).take q.length ++ (rs.drop k).drop q.length) := by
    rw [List.take_append_drop, List.take_append_drop]
  have hmem1 : ∀ r ∈ rs.take k, r.requestType = t :=
    fun r hr => htype r (List.mem_of_mem_take hr)
  have hmem2 : ∀ r ∈ (rs.drop k).take q.length, r.requestType = t :=
    fun r hr => htype r (List.mem_of_mem_drop (List.mem_of_mem_take hr))
  have hmem3 : ∀ r ∈ (rs.drop k).drop q.length, r.requestType = t :=
    fun r hr => htype r (List.mem_of_mem_drop (List.mem_of_mem_drop hr))
  have hl1 : (rs.take k).length = k := by simp [List.length_take]; omega
  have hl2 : ((rs.drop k).take q.length).length = q.length := by
    simp [List.length_take, List.length_drop]; omega
  have hl3 : ((rs.drop k).drop q.length).length = 1 := by
    simp [List.length_drop]; omega
  obtain ⟨ds1, q', hrun1, hperm, hds1, _⟩ := balanceLoadSeq_queue m t (rs.take k) lb q hq hne hmem1
  rw [hl1] at hds1
  have hq'len : q'.length = q.length := hperm.length_eq
  have hrun2 := balanceLoadSeq_front m t q' [] (lb.withQueue t q')
    ((rs.drop k).take q.length) (by rw [withQueue_queue]; simp) (by rw [hl2, hq'len]) hmem2
  simp only [List.nil_append, withQueue_withQueue] at hrun2
  cases hq' : q' with
  | nil => rw [hq'] at hq'len; exact absurd (List.length_eq_zero.mp hq'len.symm) hne
  | cons x rest =>
    obtain ⟨r3, hr3⟩ := List.length_eq_one.mp hl3
    have hcall := roundRobin_balanceLoad_queue m (lb.withQueue t q') r3 x rest
      (by rw [hmem3 r3 (by rw [hr3]; exact List.mem_singleton_self _), withQueue_queue, hq'])
    have hrun3 : RoundRobinLoadBalancer.balanceLoadSeq m (lb.withQueue t q') [r3]
        = .ok ([x], (lb.withQueue t q').withQueue r3.requestType (rest ++ [x])) := by
      simp only [RoundRobinLoadBalancer.balanceLoadSeq, hcall]
    rw [← hr3] at hrun3
    have hall := balanceLoadSeq_append m _ _ _ _ _ _ _ hrun1
      (balanceLoadSeq_append m _ _ _ _ _ _ _ hrun2 hrun3)
    rw [← hsplit] at hall
    have e1 : k + q.length - ds1.length = q'.length := by omega
    have e2 : k - ds1.length = 0 := by omega
    have hA : (ds1 ++ (q' ++ [x]))[k]? = some x := by
      rw [List.getElem?_append_right (by omega), e2, hq']
      simp
    have hB : (ds1 ++ (q' ++ [x]))[k + q.length]? = some x := by
      rw [List.getElem?_append_right (by omega), e1, List.getElem?_append_right (le_refl _)]
      simp
    refine ⟨_, _, hall, ?_, ?_, ?_, ?_⟩
    · simp [hds1, hq'len, hlen]; omega
    · rw [List.drop_left' hds1, List.take_left' hq'len]
      exact hperm
    · rw [hA, hB]
    · rw [hA]; rfl

/-! ## `RoundRobinLoadBalancer::balanceLoad` -/

/-- C3: round-robin cycle. For a registered service with `N ≥ 1` destinations, calls
for one request type counted from the first one for that type, on an unchanged memory:
for every `k`, the calls numbered `k+1 .. k+N` return each destination of the set
exactly once, and call `k+N+1` returns what call `k+1` returned. -/
theorem roundRobin_cycle (m : Memory) (lb : RoundRobinLoadBalancer) (t : RequestType)
    (sp : Nat) (svc : Service) (k : Nat) (requests : List Request)
    (hq : lb.destinationsForRequest t = none) (hreg : lb.serviceMap t = some sp)
    (hsp : sp ≠ 0) (hsvc : m.services sp = some svc)
    (hN : 1 ≤ svc.destinations.elems.length)
    (htype : ∀ r ∈ requests, r.requestType = t)
    (hlen : requests.length = k + svc.destinations.elems.length + 1) :
    ∃ ds lb', RoundRobinLoadBalancer.balanceLoadSeq m lb requests = .ok (ds, lb') ∧
      ds.length = k + svc.destinations.elems.length + 1 ∧
      ((ds.drop k).take svc.destinations.elems.length).Perm svc.destinations.elems ∧
      ((ds.drop k).take svc.destinations.elems.length).Nodup ∧
      ds[k + svc.destinations.elems.length]? = ds[k]? ∧ (ds[k]?).isSome := by
  have hne : svc.destinations.elems ≠ [] := by
    intro h; rw [h] at hN; simp at hN
  have hrs : requests ≠ [] := by
    intro h; rw [h] at hlen; simp at hlen
  obtain ⟨ds, lb', hrun, hl, hperm, hsame, hsome⟩ :=
    balanceLoadSeq_cycle m t (lb.withQueue t svc.destinations.elems) svc.destinations.elems k
      requests (withQueue_queue _ _ _) hne htype hlen
  rw [← balanceLoadSeq_first m t lb sp svc requests hq hreg hsp hsvc hrs htype] at hrun
  exact ⟨ds, lb', hrun, hl.trans hlen, hperm, hperm.nodup_iff.mpr svc.destinations.nodup,
    hsame, hsome⟩

/-- C3 on the example service (iteration order `2, 1, 3`), five calls, `k = 1`: the
calls return `2, 1, 3, 2, 1`. -/
theorem roundRobin_cycle_witness :
    (∃ ds lb', RoundRobinLoadBalancer.balanceLoadSeq demoMemory
        (RoundRobinLoadBalancer.init.registerService .TYPE_A 1)
        [demoRequest, demoRequest, demoRequest, demoRequest, demoRequest] = .ok (ds, lb') ∧
      ds.length = 1 + 3 + 1 ∧
      ((ds.drop 1).take 3).Perm [2, 1, 3] ∧ ((ds.drop 1).take 3).Nodup ∧
      ds[1 + 3]? = ds[1]? ∧ (ds[1]?).isSome) ∧
    (RoundRobinLoadBalancer.balanceLoadSeq demoMemory
        (RoundRobinLoadBalancer.init.registerService .TYPE_A 1)
        [demoRequest, demoRequest, demoRequest, demoRequest, demoRequest]).map Prod.fst
      = .ok [2, 1, 3, 2, 1] :=
  ⟨roundRobin_cycle demoMemory (RoundRobinLoadBalancer.init.registerService .TYPE_A 1) .TYPE_A 1
      { name := "Example Service", destinations := ⟨[2, 1, 3], by decide⟩ } 1
      [demoRequest, demoRequest, demoRequest, demoRequest, demoRequest]
      rfl rfl (by decide) rfl (by decide) (by decide) rfl,
   rfl⟩

/-- C9: on the empty service of the example memory, registered for `TYPE_A`, the first
`RoundRobinLoadBalancer::balanceLoad` call builds an empty queue and reads its front:
no exception is thrown. -/
theorem roundRobin_empty_set_front :
    RoundRobinLoadBalancer.balanceLoad demoMemory
      (RoundRobinLoadBalancer.init.registerService .TYPE_A 2) demoRequest
      = .error .emptyQueueFront :=
  rfl

/-! ## Requests of a type nobody registered -/

/-- C6: a request whose type has no entry in `serviceMap` (and, for round-robin, no
queue): each of the three balancers dereferences the null pointer that
`serviceMap[...]` inserts; none throws, none returns a destination. -/
theorem unregistered_type_null_dereference (hash : String → Nat) (m : Memory)
    (lb : LoadBalancer) (rr : RoundRobinLoadBalancer) (request : Request)
    (hreg : lb.serviceMap request.requestType = none)
    (hrr : rr.serviceMap request.requestType = none)
    (hq : rr.destinationsForRequest request.requestType = none) :
    LeastConnectionLoadBalancer.balanceLoad m lb request = .error .nullDereference ∧
    RoutedLoadBalancer.balanceLoad hash m lb request = .error .nullDereference ∧
    RoundRobinLoadBalancer.balanceLoad m rr request = .error .nullDereference := by
  refine ⟨?_, ?_, roundRobin_balanceLoad_unregistered m rr request hq hrr⟩
  · simp [LeastConnectionLoadBalancer.balanceLoad, getDestinations_unregistered m lb request hreg]
  · simp [RoutedLoadBalancer.balanceLoad, getDestinations_unregistered m lb request hreg]

/-- C6 on the example memory: `TYPE_B` was never registered. -/
theorem unregistered_type_null_dereference_witness :
    LeastConnectionLoadBalancer.balanceLoad demoMemory demoBalancer
        { demoRequest with requestType := .TYPE_B } = .error .nullDereference ∧
    RoutedLoadBalancer.balanceLoad String.length demoMemory demoBalancer
        { demoRequest with requestType := .TYPE_B } = .error .nullDereference ∧
    RoundRobinLoadBalancer.balanceLoad demoMemory
        (RoundRobinLoadBalancer.init.registerService .TYPE_A 1)
        { demoRequest with requestType := .TYPE_B } = .error .nullDereference :=
  unregistered_type_null_dereference String.length demoMemory demoBalancer
    (RoundRobinLoadBalancer.init.registerService .TYPE_A 1)
    { demoRequest with requestType := .TYPE_B } rfl rfl rfl

/-! ## `registerService` twice for one type -/

/-- C5 as stated fails for round-robin: after one call for `TYPE_A` the queue of the
example service exists; registering the example service and then the service at
address `3` (destination set `{3}`) for `TYPE_A` does not touch the queue, and the
next call returns the destination at address `1`. -/
theorem registration_overwrites_roundRobin_stale :
    ∃ lb1 lb2,
      RoundRobinLoadBalancer.balanceLoad demoMemory
        (RoundRobinLoadBalancer.init.registerService .TYPE_A 1) demoRequest = .ok (2, lb1) ∧
      RoundRobinLoadBalancer.balanceLoad demoMemory
        ((lb1.registerService .TYPE_A 1).registerService .TYPE_A 3) demoRequest = .ok (1, lb2) ∧
      (demoMemory.services 3).map (fun s => s.destinations.elems) = some [3] ∧
      1 ∉ ([3] : List Nat) :=
  ⟨_, _, rfl, rfl, rfl, by decide⟩

/-- C5, amended: after `registerService(T, A)` then `registerService(T, B)` with `B` a
live service with a non-empty set, the routed balancer returns a member of the set of
`B` and stays as it is; so does the least-connection balancer when the pointers of
the set are live; and the round-robin balancer, when it has no queue for `T` yet,
returns members of the set of `B` in every run of calls for `T`. -/
theorem registration_overwrites (hash : String → Nat) (m : Memory) (lb : LoadBalancer)
    (rr : RoundRobinLoadBalancer) (t : RequestType) (a b : Nat) (svcB : Service)
    (request : Request) (requests : List Request)
    (hb : b ≠ 0) (hsvc : m.services b = some svcB) (hne : svcB.destinations.elems ≠ [])
    (hreq : request.requestType = t) :
    (∃ p, RoutedLoadBalancer.balanceLoad hash m
        ((lb.registerService t a).registerService t b) request
          = .ok (p, (lb.registerService t a).registerService t b) ∧
        p ∈ svcB.destinations.elems) ∧
    ((∀ p ∈ svcB.destinations.elems, m.liveDestination p) →
      ∃ p, LeastConnectionLoadBalancer.balanceLoad m
        ((lb.registerService t a).registerService t b) request
          = .ok (p, (lb.registerService t a).registerService t b) ∧
        p ∈ svcB.destinations.elems) ∧
    (rr.destinationsForRequest t = none → (∀ r ∈ requests, r.requestType = t) →
      ∃ ds rr', RoundRobinLoadBalancer.balanceLoadSeq m
        ((rr.registerService t a).registerService t b) requests = .ok (ds, rr') ∧
        ds.length = requests.length ∧ ∀ d ∈ ds, d ∈ svcB.destinations.elems) := by
  have hreg : ((lb.registerService t a).registerService t b).serviceMap request.requestType
      = some b := by
    simp [LoadBalancer.registerService, hreq]
  refine ⟨?_, ?_, ?_⟩
  · obtain ⟨p, hrun, _, hmem⟩ := routed_balanceLoad_spec hash m _ request b svcB hreg hb hsvc hne
    exact ⟨p, hrun, hmem⟩
  · intro hlive
    obtain ⟨p, d, hrun, hmem, _⟩ :=
      leastConnection_balanceLoad_spec m _ request b svcB hreg hb hsvc hne hlive
    exact ⟨p, hrun, hmem⟩
  · intro hq htype
    cases hrs : requests with
    | nil => exact ⟨[], _, rfl, rfl, by simp⟩
    | cons r rs =>
      have hregrr : ((rr.registerService t a).registerService t b).serviceMap t = some b := by
        simp [RoundRobinLoadBalancer.registerService, LoadBalancer.registerService]
      rw [← hrs]
      rw [balanceLoadSeq_first m t ((rr.registerService t a).registerService t b) b svcB
        requests hq hregrr hb hsvc (by simp [hrs]) htype]
      obtain ⟨ds, q', hrun, _, hlen, hmem⟩ :=
        balanceLoadSeq_queue m t requests
          (((rr.registerService t a).registerService t b).withQueue t svcB.destinations.elems)
          svcB.destinations.elems (withQueue_queue _ _ _) hne htype
      exact ⟨ds, _, hrun, hlen, hmem⟩

/-- C5, amended, on the example memory: the example service then the service at
address `3` are registered for `TYPE_A` on fresh balancers. -/
theorem registration_overwrites_witness :
    (∃ p, RoutedLoadBalancer.balanceLoad String.length demoMemory
        ((LoadBalancer.init.registerService .TYPE_A 1).registerService .TYPE_A 3) demoRequest
          = .ok (p, (LoadBalancer.init.registerService .TYPE_A 1).registerService .TYPE_A 3) ∧
        p ∈ [3]) ∧
    (∃ p, LeastConnectionLoadBalancer.balanceLoad demoMemory
        ((LoadBalancer.init.registerService .TYPE_A 1).registerService .TYPE_A 3) demoRequest
          = .ok (p, (LoadBalancer.init.registerService .TYPE_A 1).registerService .TYPE_A 3) ∧
        p ∈ [3]) ∧
    (∃ ds rr', RoundRobinLoadBalancer.balanceLoadSeq demoMemory
        ((RoundRobinLoadBalancer.init.registerService .TYPE_A 1).registerService .TYPE_A 3)
        [demoRequest, demoRequest] = .ok (ds, rr') ∧
        ds.length = 2 ∧ ∀ d ∈ ds, d ∈ [3]) :=
  have h := registration_overwrites String.length demoMemory LoadBalancer.init
    RoundRobinLoadBalancer.init .TYPE_A 1 3
    { name := "Other Service", destinations := ⟨[3], by decide⟩ } demoRequest
    [demoRequest, demoRequest] (by decide) rfl (by simp) rfl
  ⟨h.1,
   h.2.1 (by
    intro p hp
    simp only [List.mem_singleton] at hp
    subst hp
    exact ⟨by decide, _, rfl⟩),
   h.2.2 rfl (by decide)⟩

/-! ## Sequences of `acceptRequest` and `completeRequest` -/

theorem runCalls_cons (d : Destination) (c : DestinationCall) (cs : List DestinationCall) :
    d.runCalls (c :: cs) = (d.call c).runCalls cs := rfl

/-- At a counter of at least `1` the decrement does not overflow. -/
theorem completeRequest_of_pos (d : Destination) (h : 0 < d.requestsBeingServed) :
    d.completeRequest
      = { d with requestsBeingServed := d.requestsBeingServed - 1 } := by
  have hno : ¬ d.requestsBeingServed - 1 < INT_MIN := by
    unfold INT_MIN; omega
  simp only [Destination.completeRequest, if_neg hno]

/-- A sequence of calls from a counter between `0` and `threshold`, where no initial
part completes more than the counter at the start plus the admissions so far: the
counter ends at what it was, plus the admissions, minus the completions; it never
passes `threshold`, and `threshold` stays. -/
theorem runCalls_accounted :
    ∀ (cs : List DestinationCall) (d : Destination),
      0 ≤ d.requestsBeingServed → d.requestsBeingServed ≤ d.threshold →
      (∀ n, (completedCount (cs.take n) : Int)
        ≤ d.requestsBeingServed + (d.acceptedCount (cs.take n) : Int)) →
      (d.runCalls cs).requestsBeingServed
          = d.requestsBeingServed + (d.acceptedCount cs : Int) - (completedCount cs : Int) ∧
        (d.runCalls cs).requestsBeingServed ≤ (d.runCalls cs).threshold ∧
        (d.runCalls cs).threshold = d.threshold := by
  intro cs
  induction cs with
  | nil =>
    intro d _ hle _
    simp [Destination.runCalls, Destination.acceptedCount, completedCount, hle]
  | cons c cs ih =>
    intro d h0 hle hacc
    rw [runCalls_cons]
    cases c with
    | acceptRequest r =>
      by_cases hlt : d.requestsBeingServed < d.threshold
      · have hstep : d.acceptRequest r
            = (true, { d with requestsBeingServed := d.requestsBeingServed + 1 }) := by
          simp [Destination.acceptRequest, hlt]
        have hnext : ∀ n, (completedCount (cs.take n) : Int)
            ≤ (d.requestsBeingServed + 1)
              + (Destination.acceptedCount
                  { d with requestsBeingServed := d.requestsBeingServed + 1 }
                  (cs.take n) : Int) := by
          intro n
          have := hacc (n + 1)
          simp only [List.take_succ_cons, completedCount, Destination.acceptedCount, hstep,
            if_true] at this
          push_cast at this
          omega
        obtain ⟨h1, h2, h3⟩ :=
          ih { d with requestsBeingServed := d.requestsBeingServed + 1 }
            (by simp only; omega) (Int.add_one_le_of_lt hlt) hnext
        simp only [Destination.call, Destination.acceptedCount, completedCount, hstep, if_true]
        simp only at h1 h2 h3
        refine ⟨?_, h2, h3⟩
        rw [h1]
        push_cast
        omega
      · have hstep : d.acceptRequest r = (false, d) := by
          simp [Destination.acceptRequest, hlt]
        have hnext : ∀ n, (completedCount (cs.take n) : Int)
            ≤ d.requestsBeingServed + (d.acceptedCount (cs.take n) : Int) := by
          intro n
          have := hacc (n + 1)
          simp only [List.take_succ_cons, completedCount, Destination.acceptedCount, hstep]
            at this
          simpa using this
        obtain ⟨h1, h2, h3⟩ := ih d h0 hle hnext
        simp only [Destination.call, Destination.acceptedCount, completedCount, hstep]
        refine ⟨?_, h2, h3⟩
        rw [h1]
        simp
    | completeRequest =>
      have hpos : 0 < d.requestsBeingServed := by
        have := hacc 1
        simp only [List.take_succ_cons, List.take_zero, completedCount,
          Destination.acceptedCount] at this
        push_cast at this
        omega
      have hstep := completeRequest_of_pos d hpos
      have hnext : ∀ n, (completedCount (cs.take n) : Int)
          ≤ (d.requestsBeingServed - 1)
            + (Destination.acceptedCount
                { d with requestsBeingServed := d.requestsBeingServed - 1 }
                (cs.take n) : Int) := by
        intro n
        have := hacc (n + 1)
        simp only [List.take_succ_cons, completedCount, Destination.acceptedCount, hstep]
          at this
        push_cast at this
        omega
      obtain ⟨h1, h2, h3⟩ :=
        ih { d with requestsBeingServed := d.requestsBeingServed - 1 }
          (by simp only; omega) (by simp only; omega) hnext
      simp only [Destination.call, Destination.acceptedCount, completedCount, hstep]
      simp only at h1 h2 h3
      refine ⟨?_, h2, h3⟩
      rw [h1]
      push_cast
      omega

/-- C10: capacity invariant. A destination is constructed with `threshold ≥ 0`; in a
sequence of `acceptRequest` / `completeRequest` calls where every initial part holds at
most as many `completeRequest` calls as `acceptRequest` calls that returned `true`,
`0 ≤ requestsBeingServed ≤ threshold` holds after every call (the state after the
first `n` calls, for every `n`). -/
theorem capacity_invariant (ip : String) (thresh : Int) (calls : List DestinationCall)
    (hthresh : 0 ≤ thresh)
    (hcons : ∀ n, completedCount (calls.take n)
      ≤ (Destination.ctor ip thresh).acceptedCount (calls.take n)) :
    ∀ n, 0 ≤ ((Destination.ctor ip thresh).runCalls (calls.take n)).requestsBeingServed ∧
      ((Destination.ctor ip thresh).runCalls (calls.take n)).requestsBeingServed
        ≤ ((Destination.ctor ip thresh).runCalls (calls.take n)).threshold ∧
      ((Destination.ctor ip thresh).runCalls (calls.take n)).threshold = thresh := by
  intro n
  have hacc : ∀ k, (completedCount ((calls.take n).take k) : Int)
      ≤ (Destination.ctor ip thresh).requestsBeingServed
        + ((Destination.ctor ip thresh).acceptedCount ((calls.take n).take k) : Int) := by
    intro k
    rw [List.take_take]
    have := hcons (min k n)
    have hzero : (Destination.ctor ip thresh).requestsBeingServed = 0 := rfl
    rw [hzero]
    omega
  obtain ⟨hcount, hceil, hthr⟩ :=
    runCalls_accounted (calls.take n) (Destination.ctor ip thresh) (le_refl _) hthresh hacc
  have hn := hcons n
  have hzero : (Destination.ctor ip thresh).requestsBeingServed = 0 := rfl
  refine ⟨?_, hceil, hthr⟩
  rw [hcount, hzero]
  omega

/-- C10 on a destination of capacity `1`, calls admitted, rejected, completed,
admitted: the state after the second call and the state after the last one. -/
theorem capacity_invariant_witness :
    (0 ≤ ((Destination.ctor "192.168.1.1" 1).runCalls
        (([.acceptRequest demoRequest, .acceptRequest demoRequest, .completeRequest,
           .acceptRequest demoRequest] : List DestinationCall).take 2)).requestsBeingServed ∧
      ((Destination.ctor "192.168.1.1" 1).runCalls
        (([.acceptRequest demoRequest, .acceptRequest demoRequest, .completeRequest,
           .acceptRequest demoRequest] : List DestinationCall).take 2)).requestsBeingServed
        ≤ ((Destination.ctor "192.168.1.1" 1).runCalls
        (([.acceptRequest demoRequest, .acceptRequest demoRequest, .completeRequest,
           .acceptRequest demoRequest] : List DestinationCall).take 2)).threshold ∧
      ((Destination.ctor "192.168.1.1" 1).runCalls
        (([.acceptRequest demoRequest, .acceptRequest demoRequest, .completeRequest,
           .acceptRequest demoRequest] : List DestinationCall).take 2)).threshold = 1) ∧
    ((Destination.ctor "192.168.1.1" 1).runCalls
        [.acceptRequest demoRequest, .acceptRequest demoRequest, .completeRequest,
         .acceptRequest demoRequest]).requestsBeingServed = 1 :=
  ⟨capacity_invariant "192.168.1.1" 1
    [.acceptRequest demoRequest, .acceptRequest demoRequest, .completeRequest,
      .acceptRequest demoRequest]
    (by decide)
    (by
      intro n
      rcases n with _ | _ | _ | _ | _ | n <;>
        simp [completedCount, Destination.acceptedCount, Destination.acceptRequest,
          Destination.completeRequest, Destination.ctor])
    2,
   by decide⟩

/-! ## `Service::addDestination` and `Service::removeDestination` -/

theorem addDestination_of_mem (s : Service) (d : Nat) (h : d ∈ s.destinations.elems) :
    s.addDestination d = s := by
  cases s
  simp only [Service.addDestination, UnorderedSet.insert] at h ⊢
  rw [dif_pos h]

theorem removeDestination_of_not_mem (s : Service) (d : Nat) (h : d ∉ s.destinations.elems) :
    s.removeDestination d = s := by
  obtain ⟨name, elems, nodup⟩ := s
  simp only [Service.removeDestination, UnorderedSet.erase, Service.mk.injEq,
    UnorderedSet.mk.injEq, true_and]
  exact List.erase_of_not_mem h

theorem mem_addDestination (s : Service) (d : Nat) :
    d ∈ (s.addDestination d).destinations.elems := by
  by_cases h : d ∈ s.destinations.elems
  · rw [addDestination_of_mem s d h]; exact h
  · simp [Service.addDestination, UnorderedSet.insert, h]

theorem not_mem_removeDestination (s : Service) (d : Nat) :
    d ∉ (s.removeDestination d).destinations.elems := by
  simp only [Service.removeDestination, UnorderedSet.erase]
  intro h
  exact ((List.Nodup.mem_erase_iff s.destinations.nodup).mp h).1 rfl

/-- C12: membership mutation is idempotent. `addDestination(d)` with `d` a member and
`removeDestination(d)` with `d` absent leave the service as it is; doing either twice
is doing it once; on a live `Service` object neither call fails. -/
theorem membership_idempotent (s : Service) (d : Nat) :
    (d ∈ s.destinations.elems → s.addDestination d = s) ∧
    (d ∉ s.destinations.elems → s.removeDestination d = s) ∧
    (s.addDestination d).addDestination d = s.addDestination d ∧
    (s.removeDestination d).removeDestination d = s.removeDestination d ∧
    (∀ (m : Memory) (sp : Nat), sp ≠ 0 → m.services sp = some s →
      (∃ m', m.addDestination sp d = .ok m' ∧ m'.services sp = some (s.addDestination d)) ∧
      (∃ m', m.removeDestination sp d = .ok m' ∧
        m'.services sp = some (s.removeDestination d))) := by
  refine ⟨addDestination_of_mem s d, removeDestination_of_not_mem s d,
    addDestination_of_mem _ d (mem_addDestination s d),
    removeDestination_of_not_mem _ d (not_mem_removeDestination s d), ?_⟩
  intro m sp hsp hs
  constructor
  · exact ⟨_, by simp only [Memory.addDestination, derefService_live m sp s hsp hs]; rfl,
      by simp⟩
  · exact ⟨_, by simp only [Memory.removeDestination, derefService_live m sp s hsp hs]; rfl,
      by simp⟩

/-- C12 on the example service (iteration order `2, 1, 3`): adding the member `1` and
removing the absent `7` change nothing. -/
theorem membership_idempotent_witness :
    (Service.mk "Example Service" ⟨[2, 1, 3], by decide⟩).addDestination 1
      = Service.mk "Example Service" ⟨[2, 1, 3], by decide⟩ ∧
    (Service.mk "Example Service" ⟨[2, 1, 3], by decide⟩).removeDestination 7
      = Service.mk "Example Service" ⟨[2, 1, 3], by decide⟩ :=
  ⟨(membership_idempotent (Service.mk "Example Service" ⟨[2, 1, 3], by decide⟩) 1).1
      (by decide),
   (membership_idempotent (Service.mk "Example Service" ⟨[2, 1, 3], by decide⟩) 7).2.1
      (by decide)⟩

/-! ## `Destination::completeRequest` -/

/-- C13 as stated fails: `completeRequest` on a fresh destination, counter `0`, leaves
the counter at `-1`. -/
theorem completeRequest_below_zero :
    (Destination.ctor "192.168.1.1" 5).requestsBeingServed = 0 ∧
    (Destination.ctor "192.168.1.1" 5).completeRequest.requestsBeingServed = -1 ∧
    ¬ 0 ≤ (Destination.ctor "192.168.1.1" 5).completeRequest.requestsBeingServed := by
  decide

/-- C13, amended: `completeRequest` is not guarded against going below zero. From a
counter of `0` it leaves the counter at `-1`; from a counter above `0` it lowers the
counter by exactly `1`. -/
theorem completeRequest_decrements (d : Destination) :
    (d.requestsBeingServed = 0 → d.completeRequest.requestsBeingServed = -1) ∧
    (0 < d.requestsBeingServed →
      d.completeRequest.requestsBeingServed = d.requestsBeingServed - 1) := by
  constructor
  · intro h
    simp only [Destination.completeRequest, h, INT_MIN]
    decide
  · intro h
    rw [completeRequest_of_pos d h]

/-- C13, amended, at a counter of `0` and at a counter of `3`. -/
theorem completeRequest_decrements_witness :
    (Destination.mk "192.168.1.1" 0 5).completeRequest.requestsBeingServed = -1 ∧
    (Destination.mk "192.168.1.1" 3 5).completeRequest.requestsBeingServed = 3 - 1 :=
  ⟨(completeRequest_decrements (Destination.mk "192.168.1.1" 0 5)).1 rfl,
   (completeRequest_decrements (Destination.mk "192.168.1.1" 3 5)).2 (by decide)⟩

/-- The decrement at the least `int`: the counter comes back as the greatest `int`, it
is not lowered by `1`. -/
theorem completeRequest_at_INT_MIN :
    (Destination.mk "192.168.1.1" INT_MIN 5).completeRequest.requestsBeingServed
      = 2147483647 := by
  decide

/-! ## The position `RoutedLoadBalancer::balanceLoad` reads -/

/-- C17: for a registered service with `N ≥ 1` destinations in iteration order
`list[0..N-1]`, `RoutedLoadBalancer::balanceLoad` returns `list[hash(id) mod N]`: the
position is below `N`, the result is a member of the set, and a request of the same
type with the same id, whatever its parameters, gets the same destination. -/
theorem routed_returns_indexed (hash : String → Nat) (m : Memory) (lb : LoadBalancer)
    (request1 request2 : Request) (sp : Nat) (svc : Service)
    (hreg : lb.serviceMap request1.requestType = some sp)
    (hsp : sp ≠ 0) (hsvc : m.services sp = some svc)
    (hN : 1 ≤ svc.destinations.elems.length)
    (hid : request2.id = request1.id) (htype : request2.requestType = request1.requestType) :
    hash request1.id % svc.destinations.elems.length < svc.destinations.elems.length ∧
    ∃ p, RoutedLoadBalancer.balanceLoad hash m lb request1 = .ok (p, lb) ∧
      svc.destinations.elems[hash request1.id % svc.destinations.elems.length]? = some p ∧
      p ∈ svc.destinations.elems ∧
      RoutedLoadBalancer.balanceLoad hash m lb request2 = .ok (p, lb) := by
  have hne : svc.destinations.elems ≠ [] := by
    intro h; rw [h] at hN; simp at hN
  obtain ⟨p, hrun, hget, hmem⟩ :=
    routed_balanceLoad_spec hash m lb request1 sp svc hreg hsp hsvc hne
  obtain ⟨q, hrun2, hget2, _⟩ :=
    routed_balanceLoad_spec hash m lb request2 sp svc (htype ▸ hreg) hsp hsvc hne
  rw [hid, hget] at hget2
  cases hget2
  exact ⟨Nat.mod_lt _ hN, p, hrun, hget, hmem, hrun2⟩

/-- C17 on the example service (iteration order `2, 1, 3`) with the length of the id
as hash: position `5 mod 3 = 2`, the destination at address `3`, with and without
parameters. -/
theorem routed_returns_indexed_witness :
    String.length demoRequest.id % 3 < 3 ∧
    ∃ p, RoutedLoadBalancer.balanceLoad String.length demoMemory demoBalancer demoRequest
        = .ok (p, demoBalancer) ∧
      ([2, 1, 3] : List Nat)[String.length demoRequest.id % 3]? = some p ∧
      p ∈ [2, 1, 3] ∧
      RoutedLoadBalancer.balanceLoad String.length demoMemory demoBalancer
        { demoRequest with parameters := [] } = .ok (p, demoBalancer) :=
  routed_returns_indexed String.length demoMemory demoBalancer demoRequest
    { demoRequest with parameters := [] } 1
    { name := "Example Service", destinations := ⟨[2, 1, 3], by decide⟩ }
    rfl (by decide) rfl (by decide) rfl rfl

/-! ## Consecutive `acceptRequest` calls -/

/-- Consecutive admissions from a counter not above `threshold`: the calls return
`true` while capacity is left, `false` from then on. -/
theorem acceptAll_spec :
    ∀ (rs : List Request) (d : Destination), d.requestsBeingServed ≤ d.threshold →
      (d.acceptAll rs).1
        = List.replicate (min rs.length (d.threshold - d.requestsBeingServed).toNat) true
          ++ List.replicate (rs.length - (d.threshold - d.requestsBeingServed).toNat) false ∧
      (d.acceptAll rs).2.requestsBeingServed
        = d.requestsBeingServed
          + ((min rs.length (d.threshold - d.requestsBeingServed).toNat : Nat) : Int) ∧
      (d.acceptAll rs).2.threshold = d.threshold := by
  intro rs
  induction rs with
  | nil => intro d _; simp [Destination.acceptAll]
  | cons r rs ih =>
    intro d h
    by_cases hlt : d.requestsBeingServed < d.threshold
    · have hacc : d.acceptRequest r
          = (true, { d with requestsBeingServed := d.requestsBeingServed + 1 }) := by
        simp [Destination.acceptRequest, hlt]
      obtain ⟨h1, h2, h3⟩ :=
        ih { d with requestsBeingServed := d.requestsBeingServed + 1 }
          (Int.add_one_le_of_lt hlt)
      have hk : (d.threshold - d.requestsBeingServed).toNat
          = (d.threshold - (d.requestsBeingServed + 1)).toNat + 1 := by omega
      simp only [Destination.acceptAll, hacc, List.length_cons]
      simp only at h1 h2 h3
      rw [h1, h2, h3, hk, Nat.add_min_add_right, List.replicate_succ, Nat.add_sub_add_right]
      refine ⟨by simp, ?_, rfl⟩
      push_cast
      omega
    · have hacc : d.acceptRequest r = (false, d) := by
        simp [Destination.acceptRequest, hlt]
      obtain ⟨h1, h2, h3⟩ := ih d h
      have hk : (d.threshold - d.requestsBeingServed).toNat = 0 := by omega
      simp only [Destination.acceptAll, hacc, List.length_cons]
      rw [h1, h2, h3, hk]
      simp [List.replicate_succ]

/-- C20: capacity ceiling by counting. On a destination constructed with threshold
`c ≥ 0`, of `n` consecutive `acceptRequest` calls exactly the first `min(n, c)` return
`true`, all later ones return `false`, and `requestsBeingServed` ends at `min(n, c)`. -/
theorem accept_ceiling (ip : String) (c : Int) (requests : List Request) (hc : 0 ≤ c) :
    ((Destination.ctor ip c).acceptAll requests).1
      = List.replicate (min requests.length c.toNat) true
        ++ List.replicate (requests.length - min requests.length c.toNat) false ∧
    ((Destination.ctor ip c).acceptAll requests).2.requestsBeingServed
      = min (requests.length : Int) c := by
  obtain ⟨h1, h2, _⟩ := acceptAll_spec requests (Destination.ctor ip c) hc
  have hz : (Destination.ctor ip c).threshold - (Destination.ctor ip c).requestsBeingServed
      = c := by simp [Destination.ctor]
  have hzero : (Destination.ctor ip c).requestsBeingServed = 0 := rfl
  rw [hz] at h1 h2
  rw [h1, h2, hzero]
  refine ⟨?_, ?_⟩
  · congr 2; omega
  · omega

/-- C20 on a destination of capacity `2` and three calls: admitted, admitted,
rejected, and the counter ends at `2`. -/
theorem accept_ceiling_witness :
    ((Destination.ctor "192.168.1.1" 2).acceptAll [demoRequest, demoRequest, demoRequest]).1
      = [true, true, false] ∧
    ((Destination.ctor "192.168.1.1" 2).acceptAll
      [demoRequest, demoRequest, demoRequest]).2.requestsBeingServed = 2 :=
  accept_ceiling "192.168.1.1" 2 [demoRequest, demoRequest, demoRequest] (by decide)

/-! ## What `LeastConnectionLoadBalancer::balanceLoad` leaves alone -/

/-- A returning `getDestinations` found a registered live service and left the
balancer as it was. -/
theorem getDestinations_ok (m : Memory) (lb lb' : LoadBalancer) (request : Request)
    (s : UnorderedSet) (h : lb.getDestinations m request = .ok (s, lb')) :
    lb' = lb ∧ ∃ sp svc, lb.serviceMap request.requestType = some sp ∧ sp ≠ 0 ∧
      m.services sp = some svc ∧ s = svc.destinations := by
  unfold LoadBalancer.getDestinations LoadBalancer.serviceMapIndex at h
  cases hmap : lb.serviceMap request.requestType with
  | none => simp [hmap, derefService] at h
  | some sp =>
    simp only [hmap] at h
    unfold derefService at h
    by_cases hsp : sp = 0
    · simp [hsp] at h
    · cases hsvc : m.services sp with
      | none => simp [hsp, hsvc] at h
      | some svc =>
        simp only [hsp, hsvc, if_false, Except.ok.injEq, Prod.mk.injEq] at h
        exact ⟨h.2.symm, sp, svc, rfl, hsp, hsvc, h.1.symm⟩

/-- A returning `LeastConnectionLoadBalancer::balanceLoad` left the balancer as it was. -/
theorem leastConnection_balanceLoad_ok (m : Memory) (lb lb' : LoadBalancer)
    (request : Request) (p : Nat)
    (h : LeastConnectionLoadBalancer.balanceLoad m lb request = .ok (p, lb')) : lb' = lb := by
  unfold LeastConnectionLoadBalancer.balanceLoad at h
  split at h
  · cases h
  · next s lb1 hget =>
    have hlb := (getDestinations_ok m lb lb1 request s hget).1
    split at h
    · cases h
    · split at h
      · split at h
        · simp only [Except.ok.injEq, Prod.mk.injEq] at h
          rw [← h.2, hlb]
        · cases h
      · cases h

/-- C16: selection does not admit. On a registered service with a non-empty set of live
destinations `LeastConnectionLoadBalancer::balanceLoad` returns and leaves the whole
state as it was: every destination (counter and threshold included), every service and
its set, and the registry; and whenever the call returns, the state is the one it
started from. -/
theorem leastConnection_selection_frame (m : Memory) (lb : LoadBalancer) (request : Request)
    (sp : Nat) (svc : Service) (hreg : lb.serviceMap request.requestType = some sp)
    (hsp : sp ≠ 0) (hsvc : m.services sp = some svc)
    (hne : svc.destinations.elems ≠ [])
    (hlive : ∀ p ∈ svc.destinations.elems, m.liveDestination p) :
    (∃ p m' lb', LeastConnectionLoadBalancer.balanceLoadState (m, lb) request
        = .ok (p, (m', lb')) ∧
      (∀ q, m'.destinations q = m.destinations q) ∧
      (∀ q, m'.services q = m.services q) ∧ m'.services sp = some svc ∧
      lb'.serviceMap = lb.serviceMap) ∧
    (∀ p st, LeastConnectionLoadBalancer.balanceLoadState (m, lb) request = .ok (p, st) →
      st = (m, lb)) := by
  constructor
  · obtain ⟨p, d, hrun, _⟩ :=
      leastConnection_balanceLoad_spec m lb request sp svc hreg hsp hsvc hne hlive
    exact ⟨p, m, lb, by simp [LeastConnectionLoadBalancer.balanceLoadState, hrun],
      fun _ => rfl, fun _ => rfl, hsvc, rfl⟩
  · intro p st h
    unfold LeastConnectionLoadBalancer.balanceLoadState at h
    split at h
    · cases h
    · next q lb1 hrun =>
      simp only [Except.ok.injEq, Prod.mk.injEq] at h
      rw [← h.2, leastConnection_balanceLoad_ok m lb lb1 request q hrun]

/-- C16 on the example service: the call returns the destination at address `1`, whose
counter is still `2` of `5` afterwards, and the state is the one before the call. -/
theorem leastConnection_selection_frame_witness :
    ∃ p m' lb', LeastConnectionLoadBalancer.balanceLoadState (demoMemory, demoBalancer)
        demoRequest = .ok (p, (m', lb')) ∧
      (∀ q, m'.destinations q = demoMemory.destinations q) ∧
      (∀ q, m'.services q = demoMemory.services q) ∧
      m'.services 1 = some { name := "Example Service", destinations := ⟨[2, 1, 3], by decide⟩ } ∧
      lb'.serviceMap = demoBalancer.serviceMap :=
  (leastConnection_selection_frame demoMemory demoBalancer demoRequest 1
      { name := "Example Service", destinations := ⟨[2, 1, 3], by decide⟩ }
      rfl (by decide) rfl (by simp)
      (by
        intro p hp
        simp only [List.mem_cons, List.mem_singleton, List.not_mem_nil, or_false] at hp
        rcases hp with rfl | rfl | rfl
        · exact ⟨by decide, _, rfl⟩
        · exact ⟨by decide, _, rfl⟩
        · exact ⟨by decide, _, rfl⟩)).1

/-! ## The iteration order behind `RoutedLoadBalancer::balanceLoad` -/

/-- C11 as stated fails: the example service iterating `2, 1, 3` and the same set
iterating `1, 2, 3`, the length of the id as hash and the id `"1234"`: position
`4 mod 3 = 1` holds the destination at address `1` in one order and the one at address
`2` in the other. Nothing is sorted. -/
theorem routed_order_dependent :
    (RoutedLoadBalancer.balanceLoad String.length demoMemory demoBalancer
        { demoRequest with id := "1234" }).map Prod.fst = .ok 1 ∧
    (RoutedLoadBalancer.balanceLoad String.length demoMemoryReordered demoBalancer
        { demoRequest with id := "1234" }).map Prod.fst = .ok 2 ∧
    (demoMemory.services 1).map (fun s => s.destinations.elems) = some [2, 1, 3] ∧
    (demoMemoryReordered.services 1).map (fun s => s.destinations.elems) = some [1, 2, 3] ∧
    List.Perm [2, 1, 3] [1, 2, 3] :=
  ⟨rfl, rfl, rfl, rfl, by decide⟩

/-- C11, amended: `RoutedLoadBalancer::balanceLoad` reads the set in its iteration
order, unsorted. For two iteration orders of one non-empty set both calls return a
member of the set, and when the two orders are the same they return the same one. -/
theorem routed_same_order (hash : String → Nat) (m1 m2 : Memory) (lb : LoadBalancer)
    (request : Request) (sp : Nat) (svc1 svc2 : Service)
    (hreg : lb.serviceMap request.requestType = some sp) (hsp : sp ≠ 0)
    (hsvc1 : m1.services sp = some svc1) (hsvc2 : m2.services sp = some svc2)
    (hne : svc1.destinations.elems ≠ [])
    (hperm : svc1.destinations.elems.Perm svc2.destinations.elems) :
    ∃ p1 p2, RoutedLoadBalancer.balanceLoad hash m1 lb request = .ok (p1, lb) ∧
      RoutedLoadBalancer.balanceLoad hash m2 lb request = .ok (p2, lb) ∧
      p1 ∈ svc1.destinations.elems ∧ p2 ∈ svc1.destinations.elems ∧
      (svc1.destinations.elems = svc2.destinations.elems → p1 = p2) := by
  have hne2 : svc2.destinations.elems ≠ [] := by
    intro h; rw [h] at hperm; exact hne hperm.eq_nil
  obtain ⟨p1, hrun1, hget1, hmem1⟩ :=
    routed_balanceLoad_spec hash m1 lb request sp svc1 hreg hsp hsvc1 hne
  obtain ⟨p2, hrun2, hget2, hmem2⟩ :=
    routed_balanceLoad_spec hash m2 lb request sp svc2 hreg hsp hsvc2 hne2
  refine ⟨p1, p2, hrun1, hrun2, hmem1, hperm.mem_iff.mpr hmem2, ?_⟩
  intro hsame
  rw [← hsame, hget1] at hget2
  cases hget2
  rfl

/-- C11, amended, on the two example memories: the orders `2, 1, 3` and `1, 2, 3` both
give a member of the set, and the order `2, 1, 3` twice gives the same destination. -/
theorem routed_same_order_witness :
    (∃ p1 p2,
      RoutedLoadBalancer.balanceLoad String.length demoMemory demoBalancer demoRequest
        = .ok (p1, demoBalancer) ∧
      RoutedLoadBalancer.balanceLoad String.length demoMemoryReordered demoBalancer demoRequest
        = .ok (p2, demoBalancer) ∧
      p1 ∈ [2, 1, 3] ∧ p2 ∈ [2, 1, 3]) ∧
    (∃ p1 p2,
      RoutedLoadBalancer.balanceLoad String.length demoMemory demoBalancer demoRequest
        = .ok (p1, demoBalancer) ∧
      RoutedLoadBalancer.balanceLoad String.length demoMemory demoBalancer demoRequest
        = .ok (p2, demoBalancer) ∧ p1 = p2) := by
  constructor
  · obtain ⟨p1, p2, h1, h2, hm1, hm2, _⟩ :=
      routed_same_order String.length demoMemory demoMemoryReordered demoBalancer demoRequest 1
        { name := "Example Service", destinations := ⟨[2, 1, 3], by decide⟩ }
        { name := "Example Service", destinations := ⟨[1, 2, 3], by decide⟩ }
        rfl (by decide) rfl rfl (by simp) (by decide)
    exact ⟨p1, p2, h1, h2, hm1, hm2⟩
  · obtain ⟨p1, p2, h1, h2, _, _, heq⟩ :=
      routed_same_order String.length demoMemory demoMemory demoBalancer demoRequest 1
        { name := "Example Service", destinations := ⟨[2, 1, 3], by decide⟩ }
        { name := "Example Service", destinations := ⟨[2, 1, 3], by decide⟩ }
        rfl (by decide) rfl rfl (by simp) (List.Perm.refl _)
    exact ⟨p1, p2, h1, h2, heq rfl⟩

/-! ## Ties in `LeastConnectionLoadBalancer::balanceLoad` -/

/-- The loop of `min_element` over the list `l` of live pointers, entered at position
`first` with the smallest so far at `smallest`: it ends at the first position whose
counter is least. -/
theorem minElementLoop_first (m : Memory) (l : List Nat)
    (hlive : ∀ p ∈ l, m.liveDestination p) :
    ∀ (rest : List Nat) (first smallest sv : Nat),
      l.drop first = rest → l[smallest]? = some sv →
      (∀ (j p : Nat), j < smallest → l[j]? = some p → m.load sv < m.load p) →
      (∀ (j p : Nat), j < first → l[j]? = some p → m.load sv ≤ m.load p) →
      ∃ i v, minElementLoop m rest first smallest sv = .ok i ∧ l[i]? = some v ∧
        (∀ (j p : Nat), j < i → l[j]? = some p → m.load v < m.load p) ∧
        (∀ (j p : Nat), l[j]? = some p → m.load v ≤ m.load p) := by
  intro rest
  induction rest with
  | nil =>
    intro first smallest sv hdrop hsv hstrict hle
    have hlen : l.length ≤ first := List.drop_eq_nil_iff.mp hdrop
    refine ⟨smallest, sv, rfl, hsv, hstrict, ?_⟩
    intro j p hj
    have hjlt : j < l.length := by
      by_contra hcon
      rw [List.getElem?_eq_none (not_lt.mp hcon)] at hj
      cases hj
    exact hle j p (lt_of_lt_of_le hjlt hlen) hj
  | cons x rest ih =>
    intro first smallest sv hdrop hsv hstrict hle
    have hx : l[first]? = some x := by
      have h0 : (l.drop first)[0]? = some x := by rw [hdrop]; simp
      rw [List.getElem?_drop] at h0
      simpa using h0
    have hdrop' : l.drop (first + 1) = rest := by
      have h1 : (l.drop first).drop 1 = rest := by rw [hdrop]; rfl
      rw [List.drop_drop] at h1
      rw [← h1]
    have hxlive : m.liveDestination x := hlive x (List.getElem?_mem hx)
    have hsvlive : m.liveDestination sv := hlive sv (List.getElem?_mem hsv)
    by_cases hlt : m.load x < m.load sv
    · obtain ⟨i, v, hrun, hget, hs, hl⟩ := ih (first + 1) first x hdrop' hx
        (fun j p hj hp => lt_of_lt_of_le hlt (hle j p hj hp))
        (fun j p hj hp => by
          rcases Nat.lt_succ_iff_lt_or_eq.mp hj with h | h
          · exact le_of_lt (lt_of_lt_of_le hlt (hle j p h hp))
          · subst h
            rw [hx] at hp
            cases hp
            exact le_refl _)
      exact ⟨i, v, by simp [minElementLoop, comp_live m x sv hxlive hsvlive, hlt, hrun],
        hget, hs, hl⟩
    · obtain ⟨i, v, hrun, hget, hs, hl⟩ := ih (first + 1) smallest sv hdrop' hsv hstrict
        (fun j p hj hp => by
          rcases Nat.lt_succ_iff_lt_or_eq.mp hj with h | h
          · exact hle j p h hp
          · subst h
            rw [hx] at hp
            cases hp
            exact not_lt.mp hlt)
      exact ⟨i, v, by simp [minElementLoop, comp_live m x sv hxlive hsvlive, hlt, hrun],
        hget, hs, hl⟩

/-- On a non-empty range of live pointers `min_element` returns the first position
whose counter is least. -/
theorem min_element_first (m : Memory) (l : List Nat) (hne : l ≠ [])
    (hlive : ∀ p ∈ l, m.liveDestination p) :
    ∃ i v, min_element m l = .ok i ∧ l[i]? = some v ∧
      (∀ (j p : Nat), j < i → l[j]? = some p → m.load v < m.load p) ∧
      (∀ (j p : Nat), l[j]? = some p → m.load v ≤ m.load p) := by
  cases l with
  | nil => exact absurd rfl hne
  | cons x rest =>
    exact minElementLoop_first m (x :: rest) hlive rest 1 0 x rfl (by simp)
      (fun j p hj _ => absurd hj (Nat.not_lt_zero j))
      (fun j p hj hp => by
        have hj0 : j = 0 := by omega
        subst hj0
        simp only [List.getElem?_cons_zero, Option.some.injEq] at hp
        rw [hp])

/-- C18: ties go to the first encountered. For a registered service whose non-empty
set of live destinations iterates `d0 .. d(N-1)`, the balancer returns `d(i)` whose
counter is the least of the set, every destination before position `i` has a strictly
greater counter, and so `i` is the smallest position holding the least counter. -/
theorem leastConnection_first_encountered (m : Memory) (lb : LoadBalancer)
    (request : Request) (sp : Nat) (svc : Service)
    (hreg : lb.serviceMap request.requestType = some sp)
    (hsp : sp ≠ 0) (hsvc : m.services sp = some svc)
    (hne : svc.destinations.elems ≠ [])
    (hlive : ∀ p ∈ svc.destinations.elems, m.liveDestination p) :
    ∃ i p, LeastConnectionLoadBalancer.balanceLoad m lb request = .ok (p, lb) ∧
      svc.destinations.elems[i]? = some p ∧
      (∀ (j q : Nat), svc.destinations.elems[j]? = some q → m.load p ≤ m.load q) ∧
      (∀ (j q : Nat), j < i → svc.destinations.elems[j]? = some q → m.load p < m.load q) ∧
      (∀ (j q : Nat), svc.destinations.elems[j]? = some q → m.load q = m.load p → i ≤ j) := by
  obtain ⟨i, v, hmin, hget, hstrict, hle⟩ :=
    min_element_first m svc.destinations.elems hne hlive
  have hi : i < svc.destinations.elems.length := by
    by_contra hcon
    rw [List.getElem?_eq_none (not_lt.mp hcon)] at hget
    cases hget
  refine ⟨i, v, ?_, hget, hle, hstrict, ?_⟩
  · simp [LeastConnectionLoadBalancer.balanceLoad,
      getDestinations_registered m lb request sp svc hreg hsp hsvc, hmin, hget,
      Nat.ne_of_lt hi]
  · intro j q hq heq
    by_contra hcon
    have := hstrict j q (not_le.mp hcon) hq
    omega

/-- C18 on the example service: the destinations at addresses `1` and `3` both have the
least counter `2`; iteration order `2, 1, 3` puts address `1` (position `1`) first, and
that one is returned. -/
theorem leastConnection_first_encountered_witness :
    (∃ i p, LeastConnectionLoadBalancer.balanceLoad demoMemory demoBalancer demoRequest
        = .ok (p, demoBalancer) ∧
      ([2, 1, 3] : List Nat)[i]? = some p ∧
      (∀ (j q : Nat), ([2, 1, 3] : List Nat)[j]? = some q → demoMemory.load p ≤ demoMemory.load q) ∧
      (∀ (j q : Nat), j < i → ([2, 1, 3] : List Nat)[j]? = some q →
        demoMemory.load p < demoMemory.load q) ∧
      (∀ (j q : Nat), ([2, 1, 3] : List Nat)[j]? = some q →
        demoMemory.load q = demoMemory.load p → i ≤ j)) ∧
    demoMemory.load 1 = 2 ∧ demoMemory.load 3 = 2 ∧ demoMemory.load 2 = 4 :=
  ⟨leastConnection_first_encountered demoMemory demoBalancer demoRequest 1
      { name := "Example Service", destinations := ⟨[2, 1, 3], by decide⟩ }
      rfl (by decide) rfl (by simp)
      (by
        intro p hp
        simp only [List.mem_cons, List.mem_singleton, List.not_mem_nil, or_false] at hp
        rcases hp with rfl | rfl | rfl
        · exact ⟨by decide, _, rfl⟩
        · exact ⟨by decide, _, rfl⟩
        · exact ⟨by decide, _, rfl⟩),
   by decide, by decide, by decide⟩

/-! ## The round-robin queue after the first call -/

/-- Calls for one request type on a non-empty queue `q`, whatever the memory at each
call: call number `i` (from `0`) returns `q[i mod N]` and the queue ends rotated. -/
theorem balanceLoadEach_queue (t : RequestType) :
    ∀ (calls : List (Memory × Request)) (lb : RoundRobinLoadBalancer) (q : List Nat),
      lb.destinationsForRequest t = some q → q ≠ [] →
      (∀ c ∈ calls, c.2.requestType = t) →
      ∃ ds, RoundRobinLoadBalancer.balanceLoadEach lb calls
          = .ok (ds, lb.withQueue t (q.rotate calls.length)) ∧
        ds.length = calls.length ∧
        ∀ i : Nat, i < calls.length → ds[i]? = q[i % q.length]? := by
  intro calls
  induction calls with
  | nil =>
    intro lb q hq _ _
    exact ⟨[], by simp [RoundRobinLoadBalancer.balanceLoadEach, withQueue_self lb t q hq],
      rfl, by simp⟩
  | cons c calls ih =>
    intro lb q hq hne htype
    obtain ⟨m, r⟩ := c
    cases q with
    | nil => exact absurd rfl hne
    | cons x rest =>
      have hr : r.requestType = t := htype (m, r) (List.mem_cons_self _ _)
      have hcall := roundRobin_balanceLoad_queue m lb r x rest (by rw [hr]; exact hq)
      rw [hr] at hcall
      obtain ⟨ds, hrun, hlen, hidx⟩ :=
        ih (lb.withQueue t (rest ++ [x])) (rest ++ [x]) (withQueue_queue _ _ _) (by simp)
          (fun c hc => htype c (List.mem_cons_of_mem _ hc))
      refine ⟨x :: ds, ?_, by simp [hlen], ?_⟩
      · simp only [RoundRobinLoadBalancer.balanceLoadEach, hcall, hrun, withQueue_withQueue,
          List.length_cons, List.rotate_cons_succ]
      · intro i hi
        cases i with
        | zero => simp
        | succ j =>
          have hj : j < calls.length := by simpa using hi
          have hrot : rest ++ [x] = (x :: rest).rotate 1 := by
            rw [List.rotate_cons_succ, List.rotate_zero]
          have hN : (rest ++ [x]).length = (x :: rest).length := by simp
          have hpos : 0 < (x :: rest).length := by simp
          rw [List.getElem?_cons_succ, hidx j hj, hN, hrot,
            List.getElem?_rotate (Nat.mod_lt _ hpos), Nat.mod_add_mod]

/-- C15: stale round-robin queue. The first call for a request type takes the set of
the registered service as it is then; every later call for the type, whatever has
happened to the objects in between (destinations added to or removed from the
service), returns the next element of that first snapshot in cyclic order: call
number `i` (from `0`) returns `snapshot[i mod N]`. -/
theorem roundRobin_stale_queue (m0 : Memory) (lb : RoundRobinLoadBalancer) (t : RequestType)
    (sp : Nat) (svc : Service) (r0 : Request) (later : List (Memory × Request))
    (hq : lb.destinationsForRequest t = none) (hreg : lb.serviceMap t = some sp)
    (hsp : sp ≠ 0) (hsvc : m0.services sp = some svc)
    (hne : svc.destinations.elems ≠ []) (hr0 : r0.requestType = t)
    (htype : ∀ c ∈ later, c.2.requestType = t) :
    ∃ ds lb', RoundRobinLoadBalancer.balanceLoadEach lb ((m0, r0) :: later) = .ok (ds, lb') ∧
      ds.length = later.length + 1 ∧
      (∀ i : Nat, i < later.length + 1 →
        ds[i]? = svc.destinations.elems[i % svc.destinations.elems.length]?) ∧
      (∀ d ∈ ds, d ∈ svc.destinations.elems) := by
  have hfirst := roundRobin_balanceLoad_first m0 lb r0 sp svc (by rw [hr0]; exact hq)
    (by rw [hr0]; exact hreg) hsp hsvc
  rw [hr0] at hfirst
  have hall : ∀ c ∈ (m0, r0) :: later, c.2.requestType = t := by
    intro c hc
    rcases List.mem_cons.mp hc with rfl | hc
    · exact hr0
    · exact htype c hc
  obtain ⟨ds, hrun, hlen, hidx⟩ :=
    balanceLoadEach_queue t ((m0, r0) :: later) (lb.withQueue t svc.destinations.elems)
      svc.destinations.elems (withQueue_queue _ _ _) hne hall
  have hrun' : RoundRobinLoadBalancer.balanceLoadEach lb ((m0, r0) :: later)
      = RoundRobinLoadBalancer.balanceLoadEach (lb.withQueue t svc.destinations.elems)
          ((m0, r0) :: later) := by
    simp only [RoundRobinLoadBalancer.balanceLoadEach, hfirst]
  rw [← hrun'] at hrun
  simp only [List.length_cons] at hlen hidx
  refine ⟨ds, _, hrun, hlen, hidx, ?_⟩
  intro d hd
  obtain ⟨i, hi, hget⟩ := List.getElem_of_mem hd
  have hsome : ds[i]? = some d := by rw [List.getElem?_eq_getElem hi, hget]
  rw [hidx i (by omega)] at hsome
  exact List.getElem?_mem hsome

/-- C15 on the example service (iteration order `2, 1, 3`): after the first call the
destination at address `2` is removed and one at address `7` is added (the set then
iterates `7, 1, 3`); the four calls return `2, 1, 3, 2`. -/
theorem roundRobin_stale_queue_witness :
    (∃ ds lb', RoundRobinLoadBalancer.balanceLoadEach
        (RoundRobinLoadBalancer.init.registerService .TYPE_A 1)
        [(demoMemory, demoRequest), (demoMemoryMutated, demoRequest),
         (demoMemoryMutated, demoRequest), (demoMemoryMutated, demoRequest)] = .ok (ds, lb') ∧
      ds.length = 3 + 1 ∧
      (∀ i : Nat, i < 3 + 1 → ds[i]? = ([2, 1, 3] : List Nat)[i % 3]?) ∧
      (∀ d ∈ ds, d ∈ [2, 1, 3])) ∧
    (demoMemoryMutated.services 1).map (fun s => s.destinations.elems) = some [7, 1, 3] ∧
    (RoundRobinLoadBalancer.balanceLoadEach
        (RoundRobinLoadBalancer.init.registerService .TYPE_A 1)
        [(demoMemory, demoRequest), (demoMemoryMutated, demoRequest),
         (demoMemoryMutated, demoRequest), (demoMemoryMutated, demoRequest)]).map Prod.fst
      = .ok [2, 1, 3, 2] :=
  ⟨roundRobin_stale_queue demoMemory (RoundRobinLoadBalancer.init.registerService .TYPE_A 1)
      .TYPE_A 1 { name := "Example Service", destinations := ⟨[2, 1, 3], by decide⟩ }
      demoRequest
      [(demoMemoryMutated, demoRequest), (demoMemoryMutated, demoRequest),
       (demoMemoryMutated, demoRequest)]
      rfl rfl (by decide) rfl (by simp) rfl
      (by
        intro c hc
        simp only [List.mem_cons, List.mem_singleton, List.not_mem_nil, or_false, or_self] at hc
        rw [hc]
        rfl),
   rfl, rfl⟩

/-! ## One queue per request type -/

theorem withQueue_queue_other (lb : RoundRobinLoadBalancer) (t t2 : RequestType)
    (q : List Nat) (h : t ≠ t2) :
    (lb.withQueue t2 q).destinationsForRequest t = lb.destinationsForRequest t := by
  simp [RoundRobinLoadBalancer.withQueue, Function.update_noteq h]

theorem withQueue_comm (lb : RoundRobinLoadBalancer) (t t2 : RequestType) (q q2 : List Nat)
    (h : t ≠ t2) :
    (lb.withQueue t2 q2).withQueue t q = (lb.withQueue t q).withQueue t2 q2 := by
  simp only [RoundRobinLoadBalancer.withQueue, RoundRobinLoadBalancer.mk.injEq, true_and]
  exact Function.update_comm h.symm _ _ _

/-- The method `RoundRobinLoadBalancer::balanceLoad` by the queue it works on. -/
theorem roundRobin_balanceLoad_eq (m : Memory) (lb : RoundRobinLoadBalancer) (r : Request) :
    RoundRobinLoadBalancer.balanceLoad m lb r
      = match RoundRobinLoadBalancer.queueAt m lb r with
        | .error e => .error e
        | .ok [] => .error .emptyQueueFront
        | .ok (x :: rest) => .ok (x, lb.withQueue r.requestType (rest ++ [x])) := by
  unfold RoundRobinLoadBalancer.balanceLoad RoundRobinLoadBalancer.ensureQueue
    RoundRobinLoadBalancer.queueAt
  cases hq : lb.destinationsForRequest r.requestType with
  | some q =>
    cases q with
    | nil => simp [hq]
    | cons x rest => simp [hq, RoundRobinLoadBalancer.withQueue]
  | none =>
    cases hget : lb.toLoadBalancer.getDestinations m r with
    | error e => simp
    | ok res =>
      obtain ⟨s, base⟩ := res
      have hbase := (getDestinations_ok m lb.toLoadBalancer base r s hget).1
      subst hbase
      cases hc : RoundRobinLoadBalancer.convertToQueue s with
      | nil => simp [hc]
      | cons x rest => simp [hc, RoundRobinLoadBalancer.withQueue]

theorem queueAt_withQueue_other (m : Memory) (lb : RoundRobinLoadBalancer) (r : Request)
    (t2 : RequestType) (q2 : List Nat) (h : r.requestType ≠ t2) :
    RoundRobinLoadBalancer.queueAt m (lb.withQueue t2 q2) r
      = RoundRobinLoadBalancer.queueAt m lb r := by
  unfold RoundRobinLoadBalancer.queueAt
  rw [withQueue_queue_other lb r.requestType t2 q2 h]
  rfl

/-- A returning call leaves the balancer with a new non-empty queue for the type of
the request and nothing else changed. -/
theorem roundRobin_balanceLoad_ok (m : Memory) (lb lb' : RoundRobinLoadBalancer)
    (r : Request) (d : Nat)
    (h : RoundRobinLoadBalancer.balanceLoad m lb r = .ok (d, lb')) :
    ∃ q, q ≠ [] ∧ lb' = lb.withQueue r.requestType q := by
  rw [roundRobin_balanceLoad_eq] at h
  split at h
  · cases h
  · cases h
  · next x rest _ =>
    simp only [Except.ok.injEq, Prod.mk.injEq] at h
    exact ⟨rest ++ [x], by simp, h.2.symm⟩

/-- A queue set for another request type goes through a call untouched. -/
theorem roundRobin_balanceLoad_withQueue_other (m : Memory) (lb : RoundRobinLoadBalancer)
    (r : Request) (t2 : RequestType) (q2 : List Nat) (h : r.requestType ≠ t2) :
    RoundRobinLoadBalancer.balanceLoad m (lb.withQueue t2 q2) r
      = match RoundRobinLoadBalancer.balanceLoad m lb r with
        | .error e => .error e
        | .ok (d, s) => .ok (d, s.withQueue t2 q2) := by
  rw [roundRobin_balanceLoad_eq, roundRobin_balanceLoad_eq, queueAt_withQueue_other m lb r t2 q2 h]
  cases RoundRobinLoadBalancer.queueAt m lb r with
  | error e => rfl
  | ok q =>
    cases q with
    | nil => rfl
    | cons x rest => simp only [withQueue_comm lb r.requestType t2 (rest ++ [x]) q2 h]

/-- Queues set for another request type go through a run of calls untouched. -/
theorem balanceLoadSeq_withQueue_other (m : Memory) (t2 : RequestType) (q2 : List Nat) :
    ∀ (rs : List Request) (lb : RoundRobinLoadBalancer),
      (∀ r ∈ rs, r.requestType ≠ t2) →
      RoundRobinLoadBalancer.balanceLoadSeq m (lb.withQueue t2 q2) rs
        = match RoundRobinLoadBalancer.balanceLoadSeq m lb rs with
          | .error e => .error e
          | .ok (ds, s) => .ok (ds, s.withQueue t2 q2) := by
  intro rs
  induction rs with
  | nil => intro lb _; rfl
  | cons r rs ih =>
    intro lb htype
    have hr := htype r (List.mem_cons_self _ _)
    have hrs : ∀ r' ∈ rs, r'.requestType ≠ t2 :=
      fun r' hr' => htype r' (List.mem_cons_of_mem _ hr')
    simp only [RoundRobinLoadBalancer.balanceLoadSeq,
      roundRobin_balanceLoad_withQueue_other m lb r t2 q2 hr]
    cases RoundRobinLoadBalancer.balanceLoad m lb r with
    | error e => rfl
    | ok res =>
      obtain ⟨d, s⟩ := res
      simp only [ih s hrs]
      cases RoundRobinLoadBalancer.balanceLoadSeq m s rs with
      | error e => rfl
      | ok res2 => rfl

/-- A call for a request type the balancer can serve returns and leaves a new
non-empty queue for that type. -/
theorem roundRobin_balanceLoad_ready (m : Memory) (lb : RoundRobinLoadBalancer) (r : Request)
    (hready : lb.ready m r.requestType) :
    ∃ d q, q ≠ [] ∧
      RoundRobinLoadBalancer.balanceLoad m lb r = .ok (d, lb.withQueue r.requestType q) := by
  rcases hready with ⟨q, hq, hne⟩ | ⟨hq, sp, svc, hreg, hsp, hsvc, hne⟩
  · cases q with
    | nil => exact absurd rfl hne
    | cons x rest =>
      exact ⟨x, rest ++ [x], by simp, roundRobin_balanceLoad_queue m lb r x rest hq⟩
  · cases hel : svc.destinations.elems with
    | nil => exact absurd hel hne
    | cons x rest =>
      refine ⟨x, rest ++ [x], by simp, ?_⟩
      rw [roundRobin_balanceLoad_first m lb r sp svc hq hreg hsp hsvc, hel,
        roundRobin_balanceLoad_queue m _ r x rest (withQueue_queue _ _ _), withQueue_withQueue]

theorem ready_withQueue (m : Memory) (lb : RoundRobinLoadBalancer) (t t' : RequestType)
    (q : List Nat) (hq : q ≠ []) (h : lb.ready m t') : (lb.withQueue t q).ready m t' := by
  by_cases ht : t' = t
  · subst ht
    exact Or.inl ⟨q, withQueue_queue _ _ _, hq⟩
  · unfold RoundRobinLoadBalancer.ready
    rw [withQueue_queue_other lb t' t q ht, withQueue_serviceMap]
    exact h

/-- A balancer that can serve both request types returns from every run of calls. -/
theorem balanceLoadSeq_ready (m : Memory) :
    ∀ (rs : List Request) (lb : RoundRobinLoadBalancer), (∀ t', lb.ready m t') →
      ∃ ds lb', RoundRobinLoadBalancer.balanceLoadSeq m lb rs = .ok (ds, lb') ∧
        ds.length = rs.length := by
  intro rs
  induction rs with
  | nil => intro lb _; exact ⟨[], lb, rfl, rfl⟩
  | cons r rs ih =>
    intro lb hready
    obtain ⟨d, q, hq, hcall⟩ := roundRobin_balanceLoad_ready m lb r (hready _)
    obtain ⟨ds, lb', hrun, hlen⟩ :=
      ih (lb.withQueue r.requestType q)
        (fun t' => ready_withQueue m lb r.requestType t' q hq (hready t'))
    exact ⟨d :: ds, lb', by simp only [RoundRobinLoadBalancer.balanceLoadSeq, hcall, hrun],
      by simp [hlen]⟩

/-- Of a returning run of calls, the calls for request type `t` return what they
return when the calls for the other type are left out, and the queue of `t` ends the
same. -/
theorem balanceLoadSeq_resultsFor (m : Memory) (t : RequestType) :
    ∀ (rs : List Request) (lb lb' : RoundRobinLoadBalancer) (ds : List Nat),
      RoundRobinLoadBalancer.balanceLoadSeq m lb rs = .ok (ds, lb') →
      ∃ lbT, RoundRobinLoadBalancer.balanceLoadSeq m lb
          (rs.filter (fun r => decide (r.requestType = t))) = .ok (resultsFor t rs ds, lbT) ∧
        lbT.destinationsForRequest t = lb'.destinationsForRequest t := by
  intro rs
  induction rs with
  | nil =>
    intro lb lb' ds h
    simp only [RoundRobinLoadBalancer.balanceLoadSeq, Except.ok.injEq, Prod.mk.injEq] at h
    obtain ⟨rfl, rfl⟩ := h
    exact ⟨lb, rfl, rfl⟩
  | cons r rs ih =>
    intro lb lb' ds h
    simp only [RoundRobinLoadBalancer.balanceLoadSeq] at h
    cases hcall : RoundRobinLoadBalancer.balanceLoad m lb r with
    | error e => simp [hcall] at h
    | ok res =>
      obtain ⟨d, lb1⟩ := res
      simp only [hcall] at h
      cases hseq : RoundRobinLoadBalancer.balanceLoadSeq m lb1 rs with
      | error e => simp [hseq] at h
      | ok res2 =>
        obtain ⟨ds1, lb2⟩ := res2
        simp only [hseq, Except.ok.injEq, Prod.mk.injEq] at h
        obtain ⟨rfl, rfl⟩ := h
        obtain ⟨lbT1, hrunT, hqT⟩ := ih lb1 lb2 ds1 hseq
        by_cases hr : r.requestType = t
        · refine ⟨lbT1, ?_, hqT⟩
          have hres : resultsFor t (r :: rs) (d :: ds1) = d :: resultsFor t rs ds1 := by
            simp [resultsFor, hr]
          rw [List.filter_cons_of_pos (by simpa using hr), hres]
          simp only [RoundRobinLoadBalancer.balanceLoadSeq, hcall, hrunT]
        · have hres : resultsFor t (r :: rs) (d :: ds1) = resultsFor t rs ds1 := by
            simp [resultsFor, hr]
          rw [List.filter_cons_of_neg (by simpa using hr), hres]
          obtain ⟨q, _, hlb1⟩ := roundRobin_balanceLoad_ok m lb lb1 r d hcall
          subst hlb1
          have hother : ∀ r' ∈ rs.filter (fun r => decide (r.requestType = t)),
              r'.requestType ≠ r.requestType := by
            intro r' hr'
            have := (List.mem_filter.mp hr').2
            simp only [decide_eq_true_eq] at this
            rw [this]
            exact fun h' => hr h'.symm
          rw [balanceLoadSeq_withQueue_other m r.requestType q _ lb hother] at hrunT
          cases hplain : RoundRobinLoadBalancer.balanceLoadSeq m lb
              (rs.filter (fun r => decide (r.requestType = t))) with
          | error e => simp [hplain] at hrunT
          | ok res3 =>
            obtain ⟨ds3, s⟩ := res3
            simp only [hplain, Except.ok.injEq, Prod.mk.injEq] at hrunT
            obtain ⟨rfl, rfl⟩ := hrunT
            refine ⟨s, rfl, ?_⟩
            rw [← hqT, withQueue_queue_other s t r.requestType q (fun h' => hr h'.symm)]

/-- C19: round-robin queues are independent per request type. On a balancer that can
serve both types (a non-empty queue, or none yet and a live service with a non-empty
set registered), a call for another type than `t` returns and leaves the queue of `t`
as it was; and in any run of calls, the calls for `t` return exactly what they return
when the calls for the other type are left out. -/
theorem roundRobin_queues_independent (m : Memory) (lb : RoundRobinLoadBalancer)
    (t : RequestType) (rs : List Request) (hready : ∀ t', lb.ready m t') :
    (∀ r : Request, r.requestType ≠ t →
      ∃ d lb', RoundRobinLoadBalancer.balanceLoad m lb r = .ok (d, lb') ∧
        lb'.destinationsForRequest t = lb.destinationsForRequest t) ∧
    ∃ ds lb' lbT, RoundRobinLoadBalancer.balanceLoadSeq m lb rs = .ok (ds, lb') ∧
      ds.length = rs.length ∧
      RoundRobinLoadBalancer.balanceLoadSeq m lb
        (rs.filter (fun r => decide (r.requestType = t))) = .ok (resultsFor t rs ds, lbT) ∧
      lbT.destinationsForRequest t = lb'.destinationsForRequest t := by
  constructor
  · intro r hr
    obtain ⟨d, q, _, hcall⟩ := roundRobin_balanceLoad_ready m lb r (hready _)
    exact ⟨d, _, hcall, withQueue_queue_other lb t r.requestType q (fun h' => hr h'.symm)⟩
  · obtain ⟨ds, lb', hrun, hlen⟩ := balanceLoadSeq_ready m rs lb hready
    obtain ⟨lbT, hrunT, hqT⟩ := balanceLoadSeq_resultsFor m t rs lb lb' ds hrun
    exact ⟨ds, lb', lbT, hrun, hlen, hrunT, hqT⟩

/-- C19 on the example memory, the example service registered for `TYPE_A` and the
service at address `3` for `TYPE_B`: the calls A, B, A, B, B, A return `2, 3, 1, 3, 3, 3`,
the calls A, A, A alone return `2, 1, 3`. -/
theorem roundRobin_queues_independent_witness :
    (∃ ds lb' lbT,
      RoundRobinLoadBalancer.balanceLoadSeq demoMemory
        ((RoundRobinLoadBalancer.init.registerService .TYPE_A 1).registerService .TYPE_B 3)
        [demoRequest, { demoRequest with requestType := .TYPE_B }, demoRequest,
         { demoRequest with requestType := .TYPE_B },
         { demoRequest with requestType := .TYPE_B }, demoRequest] = .ok (ds, lb') ∧
      ds.length = 6 ∧
      RoundRobinLoadBalancer.balanceLoadSeq demoMemory
        ((RoundRobinLoadBalancer.init.registerService .TYPE_A 1).registerService .TYPE_B 3)
        [demoRequest, demoRequest, demoRequest]
          = .ok (resultsFor .TYPE_A
              [demoRequest, { demoRequest with requestType := .TYPE_B }, demoRequest,
               { demoRequest with requestType := .TYPE_B },
               { demoRequest with requestType := .TYPE_B }, demoRequest] ds, lbT) ∧
      lbT.destinationsForRequest .TYPE_A = lb'.destinationsForRequest .TYPE_A) ∧
    (RoundRobinLoadBalancer.balanceLoadSeq demoMemory
        ((RoundRobinLoadBalancer.init.registerService .TYPE_A 1).registerService .TYPE_B 3)
        [demoRequest, { demoRequest with requestType := .TYPE_B }, demoRequest,
         { demoRequest with requestType := .TYPE_B },
         { demoRequest with requestType := .TYPE_B }, demoRequest]).map Prod.fst
      = .ok [2, 3, 1, 3, 3, 3] ∧
    (RoundRobinLoadBalancer.balanceLoadSeq demoMemory
        ((RoundRobinLoadBalancer.init.registerService .TYPE_A 1).registerService .TYPE_B 3)
        [demoRequest, demoRequest, demoRequest]).map Prod.fst = .ok [2, 1, 3] :=
  ⟨(roundRobin_queues_independent demoMemory
      ((RoundRobinLoadBalancer.init.registerService .TYPE_A 1).registerService .TYPE_B 3)
      .TYPE_A
      [demoRequest, { demoRequest with requestType := .TYPE_B }, demoRequest,
       { demoRequest with requestType := .TYPE_B },
       { demoRequest with requestType := .TYPE_B }, demoRequest]
      (by
        intro t'
        cases t'
        · exact Or.inr ⟨rfl, 1,
            { name := "Example Service", destinations := ⟨[2, 1, 3], by decide⟩ },
            rfl, by decide, rfl, by simp⟩
        · exact Or.inr ⟨rfl, 3,
            { name := "Other Service", destinations := ⟨[3], by decide⟩ },
            rfl, by decide, rfl, by simp⟩)).2,
   rfl, rfl⟩

/-! ## Two callers of `acceptRequest` at once -/

/-- One caller alone, its two steps one after the other, is `Destination::acceptRequest`. -/
theorem admission_alone (d : Destination) (c : Caller) (request : Request) :
    ((Admission.start d).run [c, c]).destination = (d.acceptRequest request).2 ∧
    ((Admission.start d).run [c, c]).phase c = .returned (d.acceptRequest request).1 := by
  by_cases h : d.requestsBeingServed < d.threshold <;> cases c <;>
    simp [Admission.run, Admission.step, Admission.start, Admission.phase, Admission.setPhase,
      Destination.acceptRequest, h]

/-- After one caller has been admitted to a destination of capacity `1`, whatever
steps follow: that caller stays admitted, the counter stays at `1`, and the other
caller is rejected as soon as it moves. -/
theorem admission_after_first (a b : Caller) (hab : a ≠ b) :
    ∀ (rest : List Caller) (s : Admission),
      s.phase a = .returned true →
      (s.phase b = .notStarted ∨ s.phase b = .returned false) →
      s.destination.requestsBeingServed = 1 → s.destination.threshold = 1 →
      (s.run rest).phase a = .returned true ∧
      (s.run rest).destination.requestsBeingServed = 1 ∧
      ((b ∈ rest ∨ s.phase b = .returned false) →
        (s.run rest).phase b = .returned false) := by
  intro rest
  induction rest with
  | nil =>
    intro s ha _ hr _
    refine ⟨ha, hr, ?_⟩
    intro h
    rcases h with h | h
    · cases h
    · exact h
  | cons c rest ih =>
    intro s ha hb hr ht
    have hrun : s.run (c :: rest) = (s.step c).run rest := rfl
    rw [hrun]
    by_cases hc : c = a
    · subst hc
      have hstep : s.step c = s := by
        simp only [Admission.step, ha]
      rw [hstep]
      obtain ⟨h1, h2, h3⟩ := ih s ha hb hr ht
      refine ⟨h1, h2, ?_⟩
      intro h
      apply h3
      rcases h with h | h
      · rcases List.mem_cons.mp h with h | h
        · exact absurd h.symm hab
        · exact Or.inl h
      · exact Or.inr h
    · have hcb : c = b := by
        cases c <;> cases a <;> cases b <;> simp_all
      subst hcb
      have hstep : (s.step c).phase a = .returned true ∧
          (s.step c).phase c = .returned false ∧
          (s.step c).destination.requestsBeingServed = 1 ∧
          (s.step c).destination.threshold = 1 := by
        rcases hb with hb | hb
        · cases c <;> cases a <;>
            simp_all [Admission.step, Admission.phase, Admission.setPhase]
        · have hsame : s.step c = s := by
            simp only [Admission.step, hb]
          rw [hsame]
          exact ⟨ha, hb, hr, ht⟩
      obtain ⟨h1, h2, h3⟩ := ih (s.step c) hstep.1 (Or.inr hstep.2.1) hstep.2.2.1 hstep.2.2.2
      exact ⟨h1, h2, fun _ => h3 (Or.inr hstep.2.1)⟩

/-- C14 as stated fails: two callers on a destination with threshold `1` and counter
`0`, both tests before either increment: both calls return `true` and the counter ends
at `2`. -/
theorem concurrent_admission_both_succeed :
    ((Admission.start (Destination.mk "192.168.1.1" 0 1)).run
        [.first, .second, .first, .second]).first = .returned true ∧
    ((Admission.start (Destination.mk "192.168.1.1" 0 1)).run
        [.first, .second, .first, .second]).second = .returned true ∧
    ((Admission.start (Destination.mk "192.168.1.1" 0 1)).run
        [.first, .second, .first, .second]).destination.requestsBeingServed = 2 := by
  decide

/-- C14, amended: admission is not atomic, the test and the increment are separate
steps. When the two calls do not overlap, that is the caller that tests first also
increments before the other caller moves, then on a destination with threshold `1`
and counter `0` the first caller returns `true`, the other returns `false`, and the
counter ends at `1`. -/
theorem serial_admission (d : Destination) (a b : Caller) (rest : List Caller)
    (hcount : d.requestsBeingServed = 0) (hthr : d.threshold = 1)
    (hab : a ≠ b) (hb : b ∈ rest) :
    ((Admission.start d).run (a :: a :: rest)).phase a = .returned true ∧
    ((Admission.start d).run (a :: a :: rest)).phase b = .returned false ∧
    ((Admission.start d).run (a :: a :: rest)).destination.requestsBeingServed = 1 := by
  have hrun : (Admission.start d).run (a :: a :: rest)
      = (((Admission.start d).step a).step a).run rest := rfl
  have hfirst : (((Admission.start d).step a).step a).phase a = .returned true ∧
      (((Admission.start d).step a).step a).phase b = .notStarted ∧
      (((Admission.start d).step a).step a).destination.requestsBeingServed = 1 ∧
      (((Admission.start d).step a).step a).destination.threshold = 1 := by
    cases a <;> cases b <;>
      simp_all [Admission.step, Admission.start, Admission.phase, Admission.setPhase]
  rw [hrun]
  obtain ⟨h1, h2, h3⟩ :=
    admission_after_first a b hab rest _ hfirst.1 (Or.inl hfirst.2.1) hfirst.2.2.1 hfirst.2.2.2
  exact ⟨h1, h3 (Or.inl hb), h2⟩

/-- C14, amended, on a destination with threshold `1` and counter `0`: the first
caller runs its whole call, then the second caller tests. -/
theorem serial_admission_witness :
    ((Admission.start (Destination.mk "192.168.1.1" 0 1)).run
        [.first, .first, .second]).phase .first = .returned true ∧
    ((Admission.start (Destination.mk "192.168.1.1" 0 1)).run
        [.first, .first, .second]).phase .second = .returned false ∧
    ((Admission.start (Destination.mk "192.168.1.1" 0 1)).run
        [.first, .first, .second]).destination.requestsBeingServed = 1 :=
  serial_admission (Destination.mk "192.168.1.1" 0 1) .first .second [.second]
    rfl rfl (by decide) (by decide)

end LB
